import Mathlib

/-!
Verification of the ragbook retrieval pipeline (chunking, index persistence,
hybrid retrieval, prompt composition, embedding cache) against its
natural-language specification.

The Python sources are shallowly embedded: pure functions become Lean
functions over `List Char` / `String`, `ℕ`, `ℤ` and `ℚ`; calls into external
libraries (faiss, rank_bm25, numpy linear algebra, the sentence-transformer
backend, hashlib, the regex engine) are modelled as explicit parameters,
since the repository treats them as black boxes.  Scores are modelled with
rational arithmetic in place of IEEE floats.

Python string primitives are re-implemented over `List Char` so that every
definition reduces inside the kernel.  The re-implementations are faithful
for ASCII text; divergences for exotic Unicode (e.g. `str.upper` on accented
letters, `\v` form feeds in `str.splitlines`) are noted next to each
definition and are irrelevant to the properties proved here.
-/

namespace Ragbook

/-! ### Python string primitives (ragbook operates on plain text)

`py_strip` models `str.strip()`, `py_rstrip` models `str.rstrip()` (both for
the ASCII whitespace subset recognised by `Char.isWhitespace`), and
`py_splitlines` models `str.splitlines()` for newline-separated text.  A
trailing `"\n"` yields a trailing empty line here where Python yields none;
the collector skips blank lines, so the two agree on every property below. -/

def strip_chars (l : List Char) : List Char :=
  ((l.dropWhile Char.isWhitespace).reverse.dropWhile Char.isWhitespace).reverse

def py_strip (s : String) : String :=
  String.mk (strip_chars s.data)

def py_rstrip (s : String) : String :=
  String.mk ((s.data.reverse.dropWhile Char.isWhitespace).reverse)

def py_take (s : String) (n : ℕ) : String :=
  String.mk (s.data.take n)

def py_len (s : String) : ℕ := s.data.length

def split_newlines_go : List Char → List Char → List String
  | [], acc => [String.mk acc.reverse]
  | c :: cs, acc =>
      if c = '\n' then String.mk acc.reverse :: split_newlines_go cs []
      else split_newlines_go cs (c :: acc)

def py_splitlines (s : String) : List String :=
  if s.data = [] then [] else split_newlines_go s.data []

/-- Concatenation with a separator, modelling `sep.join(parts)`. -/
def py_join (sep : String) : List String → String
  | [] => ""
  | [x] => x
  | x :: xs => x ++ sep ++ py_join sep xs

def is_ascii_lower (c : Char) : Bool := 'a' ≤ c && c ≤ 'z'

def is_ascii_upper (c : Char) : Bool := 'A' ≤ c && c ≤ 'Z'

def is_ascii_alpha (c : Char) : Bool := is_ascii_lower c || is_ascii_upper c

def is_ascii_digit (c : Char) : Bool := '0' ≤ c && c ≤ '9'

/-! ### ragbook/utils.py -/

/-- Source: `utils.estimate_tokens`, `max(1, int(len(text) / 4))`.  The float
division truncates exactly like `ℕ` division for any realistic length. -/
def estimate_tokens (text : String) : ℕ :=
  max 1 (py_len text / 4)

/-- Little-endian decimal digits with explicit fuel (`n` itself suffices),
kept structural so the kernel can evaluate chunk ids. -/
def decimal_rev : ℕ → ℕ → List ℕ
  | 0, _ => []
  | _ + 1, 0 => []
  | fuel + 1, n + 1 => ((n + 1) % 10) :: decimal_rev fuel ((n + 1) / 10)

/-- Big-endian decimal digits of `n` (digits of `0` are `[0]`). -/
def decimal_digits (n : ℕ) : List ℕ :=
  if n = 0 then [0] else (decimal_rev n n).reverse

def digit_char : ℕ → Char
  | 0 => '0' | 1 => '1' | 2 => '2' | 3 => '3' | 4 => '4'
  | 5 => '5' | 6 => '6' | 7 => '7' | 8 => '8' | _ => '9'

/-- Characters of `f"{n:04d}"`: decimal digits left-padded with `'0'` to
width 4. -/
def pad4_chars (n : ℕ) : List Char :=
  List.replicate (4 - (decimal_digits n).length) '0' ++ (decimal_digits n).map digit_char

/-- Source: `utils.make_chunk_id`, `f"chunk_{idx_1_based:04d}"`. -/
def make_chunk_id (idx_1_based : ℕ) : String :=
  String.mk ("chunk_".data ++ pad4_chars idx_1_based)

/-- Source: `utils.citation`. -/
def citation (page_start page_end : ℕ) (chunk_id : String) : String :=
  if page_start = page_end then
    "[p." ++ String.mk (decimal_digits page_start |>.map digit_char) ++ " | " ++ chunk_id ++ "]"
  else
    "[p." ++ String.mk (decimal_digits page_start |>.map digit_char) ++ "–"
      ++ String.mk (decimal_digits page_end |>.map digit_char) ++ " | " ++ chunk_id ++ "]"

/-! ### Data model -/

/-- Source: `ingest.PageText`. -/
structure PageText where
  page_num : ℕ
  text : String
deriving DecidableEq, Inhabited

/-- Source: `chunking.TextUnit`. -/
structure TextUnit where
  text : String
  page_num : ℕ
  section_title : Option String
deriving DecidableEq, Inhabited

/-- The persisted chunk record (`build_chunks` emits dicts with exactly these
keys; `build_and_persist_index` later adds `source_pdf`). -/
structure Chunk where
  book_title : String
  chunk_id : String
  page_start : ℕ
  page_end : ℕ
  section_title : Option String
  token_estimate : ℕ
  text : String
  source_pdf : String
deriving DecidableEq, Inhabited

/-! ### ragbook/chunking.py -/

/-- Source: `chunking._is_all_caps_heading`.  `re.findall(r"[A-Za-z]", s)`
counts ASCII letters; `s.upper() == s` holds exactly when `s` has no ASCII
lowercase letter (modelled for ASCII text). -/
def is_all_caps_heading (line : String) : Bool :=
  let s := py_strip line
  if s = "" || 120 < py_len s then false
  else if (s.data.countP fun c => is_ascii_alpha c) < 3 then false
  else s.data.all fun c => !(is_ascii_lower c)

/-- A character that may continue a word of `re.findall r"[A-Za-z][A-Za-z'\-]*"`. -/
def title_word_char (c : Char) : Bool :=
  is_ascii_alpha c || c = '\'' || c = '-'

/-- Left-to-right maximal matches of `[A-Za-z][A-Za-z'\-]*`, with fuel so the
scan stays structural (fuel = number of characters always suffices: every
step consumes at least one character). -/
def title_words_go : ℕ → List Char → List (List Char)
  | 0, _ => []
  | _ + 1, [] => []
  | fuel + 1, c :: cs =>
      if is_ascii_alpha c then
        (c :: cs.takeWhile title_word_char) :: title_words_go fuel (cs.dropWhile title_word_char)
      else
        title_words_go fuel cs

def title_words (s : String) : List (List Char) :=
  title_words_go s.data.length s.data

/-- Count of words whose first character is an ASCII uppercase letter
(`w[0].isupper()`; words always start with an ASCII letter). -/
def title_cap_count (ws : List (List Char)) : ℕ :=
  ws.countP fun w => match w with
    | [] => false
    | c :: _ => is_ascii_upper c

/-- Source: `chunking._is_title_case_heading`.  The float comparison
`cap_ratio >= 0.7` is modelled as `10 * caps ≥ 7 * words`; for the word
counts involved (1–14) the two are equivalent, since no fraction `c/w` with
`w ≤ 14` falls inside the rounding gap of the float literal `0.7`. -/
def is_title_case_heading (line next_line : String) : Bool :=
  let s := py_strip line
  if s = "" || 120 < py_len s then false
  else if py_strip next_line ≠ "" then false
  else
    let words := title_words s
    if words = [] || 14 < words.length then false
    else 7 * words.length ≤ 10 * title_cap_count words

/-- The synthetic next line used by `_collect_units`:
`lines[i + 1] if i + 1 < len(lines) else ""`. -/
def next_line_of (rest : List String) : String :=
  match rest with
  | [] => ""
  | r :: _ => r

/-- The heading test applied by `_collect_units` at a paragraph-start line,
given the lines that follow it on the same page. -/
def classified_as_heading (line : String) (rest : List String) : Bool :=
  is_all_caps_heading line || is_title_case_heading line (next_line_of rest)

/-- Close a pending paragraph: pieces are the stripped lines in reverse
order of arrival; they are space-joined and stripped
(`" ".join(para_lines).strip()`). -/
def flush_para (pending : List String) (pn : ℕ) (cur : Option String) : List TextUnit :=
  let para := py_strip (py_join " " pending.reverse)
  if para = "" then [] else [⟨para, pn, cur⟩]

/-- One page of `chunking._collect_units` as a single pass.  The source
walks an index `i`, greedily consuming the non-blank lines after a
paragraph-start line inside a nested `while`; here the partially built
paragraph is carried as `pending` (stripped pieces, newest first), which
visits lines in the same order and applies the heading test exactly at the
lines where the source applies it (paragraph-start lines only). -/
def collect_page_go (pn : ℕ) : List String → List String → Option String →
    List TextUnit × Option String
  | [], pending, cur => (flush_para pending pn cur, cur)
  | l :: rest, pending, cur =>
      let line := py_strip l
      if line = "" then
        let done := flush_para pending pn cur
        let next := collect_page_go pn rest [] cur
        (done ++ next.1, next.2)
      else
        match pending with
        | _ :: _ => collect_page_go pn rest (line :: pending) cur
        | [] =>
            if classified_as_heading line rest then
              let next := collect_page_go pn rest [] (some line)
              (⟨line, pn, some line⟩ :: next.1, next.2)
            else
              collect_page_go pn rest [line] cur

/-- Source: `chunking._collect_units`; the running section title is threaded
across pages and starts as `None`. -/
def collect_units_go : List PageText → Option String → List TextUnit
  | [], _ => []
  | p :: ps, cur =>
      let r := collect_page_go p.page_num (py_splitlines p.text) [] cur
      r.1 ++ collect_units_go ps r.2

def collect_units (pages : List PageText) : List TextUnit :=
  collect_units_go pages none

/-- Source: `chunking._tail_overlap_units`, the `for u in reversed(units)`
loop with an early `break`; the scanned reversal is the argument here. -/
def tail_overlap_go (overlap_tokens : ℕ) : List TextUnit → ℕ → List TextUnit
  | [], _ => []
  | u :: rest, total =>
      let total' := total + estimate_tokens u.text
      if overlap_tokens ≤ total' then [u]
      else u :: tail_overlap_go overlap_tokens rest total'

def tail_overlap_units (units : List TextUnit) (overlap_tokens : ℕ) : List TextUnit :=
  (tail_overlap_go overlap_tokens units.reverse 0).reverse

def token_sum (units : List TextUnit) : ℕ :=
  (units.map fun u => estimate_tokens u.text).sum

/-- Source: the `flush_chunk` closure of `chunking.build_chunks`.  Returns
`none` exactly when the joined text strips to empty (then the source neither
emits a chunk nor bumps `next_chunk_num`). -/
def flush_chunk (book_title : String) (next_chunk_num : ℕ) (chunk_units : List TextUnit) :
    Option Chunk :=
  let text := py_strip (py_join "\n\n" (chunk_units.map fun u => u.text))
  if text = "" then none
  else
    let pages_in_chunk := chunk_units.map fun u => u.page_num
    let sect := (chunk_units.reverse.filterMap fun u =>
      match u.section_title with
      | some s => if s = "" then none else some s
      | none => none).head?
    some
      { book_title := book_title
        chunk_id := make_chunk_id next_chunk_num
        page_start := pages_in_chunk.foldr min (pages_in_chunk.headD 0)
        page_end := pages_in_chunk.foldr max (pages_in_chunk.headD 0)
        section_title := sect
        token_estimate := estimate_tokens text
        text := text
        source_pdf := "" }

/-- A non-final chunk boundary of `build_chunks`: the buffer flushed by the
`current_tokens >= target_max_tokens` trigger together with the units the
tail overlap carries into the next buffer. -/
structure Boundary where
  flushed : List TextUnit
  carried : List TextUnit
deriving DecidableEq, Inhabited

/-- State of the packing loop of `chunking.build_chunks`. -/
structure PackState where
  chunks : List Chunk
  boundaries : List Boundary
  current : List TextUnit
  current_tokens : ℕ
  next_chunk_num : ℕ
  just_flushed : Bool
deriving DecidableEq, Inhabited

/-- One iteration of the `for unit in units` loop of `build_chunks`. -/
def pack_step (book_title : String) (target_max_tokens overlap_tokens : ℕ)
    (st : PackState) (unit : TextUnit) : PackState :=
  let current := st.current ++ [unit]
  let current_tokens := st.current_tokens + estimate_tokens unit.text
  if target_max_tokens ≤ current_tokens then
    let flushed := flush_chunk book_title st.next_chunk_num current
    let overlap := tail_overlap_units current overlap_tokens
    { chunks := st.chunks ++ flushed.toList
      boundaries := st.boundaries ++ [⟨current, overlap⟩]
      current := overlap
      current_tokens := token_sum overlap
      next_chunk_num := st.next_chunk_num + (if flushed.isSome then 1 else 0)
      just_flushed := true }
  else
    { st with current := current, current_tokens := current_tokens, just_flushed := false }

/-- The packing loop of `build_chunks` plus its trailing
`if current and not just_flushed: flush_chunk(current)` (the
`target_min_tokens` comparison in the source is dead code and changes
nothing). -/
def pack_units (book_title : String) (target_max_tokens overlap_tokens : ℕ)
    (units : List TextUnit) : PackState :=
  let final := units.foldl (pack_step book_title target_max_tokens overlap_tokens)
    { chunks := [], boundaries := [], current := [], current_tokens := 0
      next_chunk_num := 1, just_flushed := false }
  if final.current ≠ [] ∧ final.just_flushed = false then
    { final with
      chunks := final.chunks ++ (flush_chunk book_title final.next_chunk_num final.current).toList }
  else final

/-- Source: `chunking.build_chunks` (defaults
`target_min_tokens=900, target_max_tokens=1200, overlap_tokens=200`). -/
def build_chunks (pages : List PageText) (book_title : String)
    (target_max_tokens overlap_tokens : ℕ) : List Chunk :=
  let units := collect_units pages
  if units = [] then []
  else (pack_units book_title target_max_tokens overlap_tokens units).chunks

/-- The non-final boundaries `build_chunks` produces on the way. -/
def build_boundaries (pages : List PageText) (book_title : String)
    (target_max_tokens overlap_tokens : ℕ) : List Boundary :=
  let units := collect_units pages
  if units = [] then []
  else (pack_units book_title target_max_tokens overlap_tokens units).boundaries

/-! ### ragbook/retrieve.py

The loaded index hands `hybrid_retrieve` three external artifacts that the
embedding takes as parameters: the faiss top-N result (a list of
`(similarity, id)` pairs, ids possibly `-1` for padding), the BM25 score
vector over the whole corpus, and the chunk list.  Scores are rationals in
place of `float32`. -/

/-- Source: `retrieve.RetrievedChunk`. -/
structure RetrievedChunk where
  chunk : Chunk
  dense_score : ℚ
  sparse_score : ℚ
  hybrid_score : ℚ
  rank : ℕ
deriving DecidableEq, Inhabited

/-- The scatter loop of `hybrid_retrieve`: start from a zero vector of
corpus length and write `max(score, 0)` at each non-negative candidate id
(faiss only returns ids below the corpus size; out-of-range writes cannot
occur and are no-ops here). -/
def scatter_dense (n : ℕ) (cands : List (ℚ × ℤ)) : List ℚ :=
  cands.foldl
    (fun arr sc => if sc.2 < 0 then arr else arr.set sc.2.toNat (max sc.1 0))
    (List.replicate n 0)

/-- The maximum entry of a numpy array (`arr.max()`), taken over a
non-empty list; `0` is an arbitrary value for the impossible empty case. -/
def arr_max : List ℚ → ℚ
  | [] => 0
  | x :: xs => xs.foldl max x

/-- The normalization of `hybrid_retrieve`: divide by the maximum when it is
positive, otherwise leave the vector untouched. -/
def normalize_scores (l : List ℚ) : List ℚ :=
  if 0 < arr_max l then l.map fun x => x / arr_max l else l

/-- Fusion: `dense_weight * dense_norm + sparse_weight * sparse_norm`. -/
def fuse_hybrid (dense_weight sparse_weight : ℚ) (dn sn : List ℚ) : List ℚ :=
  List.zipWith (fun a b => dense_weight * a + sparse_weight * b) dn sn

/-- Insert `i` into an index list sorted by descending `val`, after every
entry of value ≥ `val i`. -/
def insert_desc (val : ℕ → ℚ) (i : ℕ) : List ℕ → List ℕ
  | [] => [i]
  | j :: rest => if val i ≤ val j then j :: insert_desc val i rest else i :: j :: rest

/-- The index permutation `np.argsort(-hybrid)` up to tie order: a
permutation of `0..n-1` sorted by descending `val`.  numpy's default sort
promises the descending order but not stability; this model realises the
order with an insertion sort and only its sortedness is used below. -/
def argsort_desc (val : ℕ → ℚ) (n : ℕ) : List ℕ :=
  (List.range n).foldl (fun acc i => insert_desc val i acc) []

/-- Source: `retrieve.hybrid_retrieve`. -/
def hybrid_retrieve (chunks : List Chunk) (dense_cands : List (ℚ × ℤ))
    (sparse_all : List ℚ) (top_k : ℕ) (dense_weight sparse_weight : ℚ) :
    List RetrievedChunk :=
  let n := chunks.length
  if n = 0 then []
  else
    let dense_all := scatter_dense n dense_cands
    let dense_norm := normalize_scores dense_all
    let sparse_norm := normalize_scores sparse_all
    let hybrid := fuse_hybrid dense_weight sparse_weight dense_norm sparse_norm
    let hval : ℕ → ℚ := fun i => hybrid.getD i 0
    let top_ids := (argsort_desc hval n).take top_k
    top_ids.enum.map fun p =>
      { chunk := chunks.getD p.2 default
        dense_score := dense_norm.getD p.2 0
        sparse_score := sparse_norm.getD p.2 0
        hybrid_score := hval p.2
        rank := p.1 + 1 }

/-! ### ragbook/prompt.py

`_clean_context_text` is a pipeline of `re` substitutions; the regex engine
is external, so the cleaning step enters the model as an explicit
`clean : String → String` parameter.  The properties below do not depend on
its output except on inputs where the source cleaning is provably the
identity (text without whitespace runs, email addresses, or front-matter
markers). -/

/-- Source: `prompt._max_context_chars`; `raw` models the value of
`RAG_MAX_CONTEXT_CHARS` when it parses as an integer, `none` standing for
both an unset variable and a parse failure (the source returns 2000 for
either). -/
def max_context_chars (raw : Option ℤ) : ℤ :=
  match raw with
  | some v => max 500 v
  | none => 2000

/-- Source: `prompt._truncate_text`. -/
def truncate_text (text : String) (remaining_chars : ℤ) : String :=
  if remaining_chars ≤ 0 then ""
  else if (py_len text : ℤ) ≤ remaining_chars then text
  else if remaining_chars ≤ 3 then py_take text remaining_chars.toNat
  else py_rstrip (py_take text (remaining_chars - 3).toNat) ++ "..."

/-- Python falsiness of `x or "N/A"` for an optional string field. -/
def or_na : Option String → String
  | none => "N/A"
  | some s => if s = "" then "N/A" else s

def format_citation (c : Chunk) : String :=
  citation c.page_start c.page_end c.chunk_id

/-- The per-chunk header block of `build_answer_prompt` (the f-string built
from the context index, citation, document and section labels). -/
def context_header (i : ℕ) (r : RetrievedChunk) : String :=
  "[Context " ++ String.mk (decimal_digits i |>.map digit_char) ++ "] "
    ++ format_citation r.chunk ++ "\n"
    ++ "Document: " ++ or_na (some r.chunk.book_title) ++ "\n"
    ++ "Section: " ++ or_na r.chunk.section_title ++ "\n"
    ++ "Text:\n"

/-- One observed iteration of the context loop of `build_answer_prompt`. -/
structure ContextStep where
  idx : ℕ
  remaining : ℤ
  chunks_remaining : ℕ
  header : String
  per_chunk_budget : ℤ
  text_budget : ℤ
  emitted : Option String
deriving DecidableEq, Inhabited

/-- One iteration of the context loop of `build_answer_prompt`, for the
chunk at 1-based position `i` with budget `remaining` left.  The source
computes `remaining_chunks = len(retrieved) - i + 1`, which is the length of
the unprocessed tail `r :: rest`; `//` is Python floor division,
`Int.fdiv`.  `emitted` is `none` exactly when the truncated text is empty
and the source hits `continue`. -/
def context_step (clean : String → String) (r : RetrievedChunk)
    (rest : List RetrievedChunk) (i : ℕ) (remaining : ℤ) : ContextStep :=
  let remaining_chunks := (r :: rest).length
  let header := context_header i r
  let per_chunk_budget : ℤ := max 350 (Int.fdiv remaining (max 1 remaining_chunks))
  let text_budget : ℤ := max 0 (per_chunk_budget - py_len header)
  let text := truncate_text (clean r.chunk.text) text_budget
  if text = "" then
    ⟨i, remaining, remaining_chunks, header, per_chunk_budget, text_budget, none⟩
  else
    ⟨i, remaining, remaining_chunks, header, per_chunk_budget, text_budget,
      some (header ++ text)⟩

/-- The context loop of `build_answer_prompt`, recorded step by step: a
skipped chunk leaves the budget unchanged and the loop continues; an emitted
block decrements the budget by its length plus the delimiter length 7. -/
def build_context_go (clean : String → String) :
    List RetrievedChunk → ℕ → ℤ → List ContextStep
  | [], _, _ => []
  | r :: rest, i, remaining =>
      if remaining ≤ 0 then []
      else
        let st := context_step clean r rest i remaining
        st :: build_context_go clean rest (i + 1)
          (match st.emitted with
           | none => remaining
           | some blk => remaining - (py_len blk + 7))

/-- The emitted context blocks (`context_blocks` in the source). -/
def context_blocks (clean : String → String) (budget : ℤ)
    (retrieved : List RetrievedChunk) : List String :=
  (build_context_go clean retrieved 1 budget).filterMap fun st => st.emitted

/-- The context section of the prompt:
`"\n\n---\n\n".join(context_blocks)` with the empty-context fallback. -/
def context_section (clean : String → String) (budget : ℤ)
    (retrieved : List RetrievedChunk) : String :=
  let blocks := context_blocks clean budget retrieved
  if blocks = [] then "(no context retrieved)" else py_join "\n\n---\n\n" blocks

/-! ### ragbook/embeddings.py

Vectors are abstract rational tuples.  The sentence-transformer backend,
numpy's `_l2_normalize` and `hashlib.sha1` are external: they enter as
parameters (`enc`, the already-normalizing `_encoder` closure of
`encode_texts`; `lnorm`; `h`).  The shelve store is an association list
whose most recent insertion wins lookup, matching overwrite semantics. -/

abbrev Vec := List ℚ

/-- Source: `utils.sha1_text(model_name + "\n" + t)` with the hash function
abstracted; what matters to the claims is which string is hashed. -/
def cache_key (h : String → String) (model_name t : String) : String :=
  h (model_name ++ "\n" ++ t)

def db_lookup (db : List (String × Vec)) (k : String) : Option Vec :=
  (db.find? fun e => e.1 = k).map fun e => e.2

def db_insert (db : List (String × Vec)) (k : String) (v : Vec) : List (String × Vec) :=
  (k, v) :: db

/-- Result of one `EmbeddingCache.get_many` call: the final store, the
stacked vectors, and every batch the encoder was invoked on. -/
structure GetManyOut where
  db : List (String × Vec)
  result : List Vec
  enc_batches : List (List String)
deriving Inhabited

/-- The body of `get_many`'s miss loop
`for i, key, vec in zip(missing_idx, missing_keys, enc)`: write the encoded
vector into `vectors[i]` and store it in the shelf under its key. -/
def fill_step (h : String → String) (model_name : String)
    (acc : List (Option Vec) × List (String × Vec)) (pv : (ℕ × String) × Vec) :
    List (Option Vec) × List (String × Vec) :=
  (acc.1.set pv.1.1 (some pv.2), db_insert acc.2 (cache_key h model_name pv.1.2) pv.2)

/-- Source: `EmbeddingCache.get_many`.  First pass fills `vectors[i]` for
hits and collects `(missing_idx, missing_texts, missing_keys)` in input
order; on a non-empty miss list the encoder runs once on `missing_texts`
and `zip` pairs its output back (truncating at the shorter list, as `zip`
does); `vstack` keeps the non-`None` entries. -/
def get_many (h : String → String) (db : List (String × Vec)) (model_name : String)
    (texts : List String) (enc : List String → List Vec) : GetManyOut :=
  let keys := texts.map fun t => cache_key h model_name t
  let vectors0 : List (Option Vec) := keys.map fun k => db_lookup db k
  let missing : List (ℕ × String) :=
    (texts.enum.filter fun p => db_lookup db (cache_key h model_name p.2) = none)
  let missing_texts := missing.map fun p => p.2
  if missing_texts = [] then
    ⟨db, vectors0.filterMap id, []⟩
  else
    let encd := enc missing_texts
    let filled := (missing.zip encd).foldl (fill_step h model_name) (vectors0, db)
    ⟨filled.2, filled.1.filterMap id, [missing_texts]⟩

/-- Source: `EmbeddingModel.encode_texts` with a cache: the `_encoder`
closure normalizes each backend vector (`lnorm ∘ backend`), `get_many`
consults the cache, and the stacked output is normalized once more. -/
def encode_texts (lnorm : Vec → Vec) (backend : List String → List Vec)
    (h : String → String) (db : List (String × Vec)) (model_name : String)
    (texts : List String) : GetManyOut :=
  let out := get_many h db model_name texts fun ts => (backend ts).map lnorm
  { out with result := out.result.map lnorm }

/-! ### ragbook/index.py -/

/-- One source document as `build_and_persist_index` sees it after
`ingest_pdf`: the resolved path string and the extracted pages. -/
structure Doc where
  book_title : String
  pdf_path : String
  pages : List PageText
deriving DecidableEq, Inhabited

/-- The `all_chunks` accumulator of `build_and_persist_index`: per-document
`build_chunks` (with the source's default token parameters), `source_pdf`
tagging, and concatenation in input order. -/
def concat_doc_chunks (docs : List Doc) : List Chunk :=
  (docs.map fun d =>
    (build_chunks d.pages d.book_title 1200 200).map fun c =>
      { c with source_pdf := d.pdf_path }).flatten

/-- The chunk-production part of `build_and_persist_index`: the emptiness
checks around `concat_doc_chunks` and the final renumbering loop
`for i, chunk in enumerate(all_chunks, start=1)`. -/
def build_index_chunks (docs : List Doc) : Except String (List Chunk) :=
  if docs = [] then .error "At least one PDF path is required."
  else if concat_doc_chunks docs = [] then
    .error "No chunks were created from the provided PDF(s)."
  else .ok ((concat_doc_chunks docs).enum.map fun p =>
    { p.2 with chunk_id := make_chunk_id (p.1 + 1) })

/-- A chunk with its `chunk_id` field blanked, for stating that everything
except the id survives concatenation untouched. -/
def erase_id (c : Chunk) : Chunk := { c with chunk_id := "" }

/-- The artifact names `build_and_persist_index` writes, in write order
(`ensure_dir` aside): `chunks.jsonl`, then the embedding cache touched
during encoding, then the faiss index, the pickled BM25 tokens, and last
`meta.json`. -/
def build_write_order : List String :=
  ["chunks.jsonl", "emb_cache.db", "faiss.index", "bm25_tokens.pkl", "meta.json"]

/-- Files present after the build completed `k` of its 5 write steps and
then failed, starting from a directory already holding `initial` (each write
is taken as atomic). -/
def files_after_partial_build (initial : List String) (k : ℕ) : List String :=
  initial ++ build_write_order.take k

/-- The four artifacts `load_index` requires, in check order. -/
def required_artifacts : List String :=
  ["chunks.jsonl", "faiss.index", "bm25_tokens.pkl", "meta.json"]

deriving instance DecidableEq for Except

/-- The `load_index` existence check: raise `FileNotFoundError` naming the
first missing artifact. -/
def load_index_check (files : List String) : Except String Unit :=
  match required_artifacts.find? fun p => !(files.contains p) with
  | some p => .error ("Missing index artifact: " ++ p)
  | none => .ok ()

def load_check_passes (files : List String) : Bool :=
  required_artifacts.all fun p => files.contains p

/-! ### ragbook/ingest.py -/

/-- Source: `ingest._normalize_line_for_repeat_detection`: strip, ASCII
lower-case, delete digits, collapse non-`[a-z]` runs to single spaces,
strip again.  Deleting each digit character equals deleting digit runs, and
mapping other non-matching characters to spaces and collapsing space runs
equals replacing non-matching runs by one space. -/
def ascii_lower_char (c : Char) : Char :=
  if is_ascii_upper c then Char.ofNat (c.toNat + 32) else c

def collapse_spaces : List Char → List Char
  | [] => []
  | ' ' :: rest =>
      match collapse_spaces rest with
      | ' ' :: tail => ' ' :: tail
      | tail => ' ' :: tail
  | c :: rest => c :: collapse_spaces rest

def normalize_line_for_repeat_detection (line : String) : String :=
  let x := (py_strip line).data.map ascii_lower_char
  let x := x.filter fun c => !(is_ascii_digit c)
  let x := x.map fun c => if is_ascii_lower c then c else ' '
  py_strip (String.mk (collapse_spaces x))

/-- The last `bottom_n` elements, `lines[-bottom_n:]` for `bottom_n > 0`. -/
def py_tail (l : List String) (bottom_n : ℕ) : List String :=
  l.drop (l.length - bottom_n)

def count_in (l : List String) (k : String) : ℕ :=
  l.countP fun x => x = k

/-- Source: `ingest.remove_repeated_headers_footers`.  The threshold
`max(3, int(len(pages) * min_ratio))` mixes float arithmetic into an
otherwise discrete function and is taken as the parameter `threshold`; the
claims here hold for every threshold. -/
def remove_repeated_headers_footers (pages : List PageText)
    (top_n bottom_n threshold : ℕ) : List PageText :=
  if pages = [] then pages
  else
    let nonblank := fun (p : PageText) =>
      ((py_splitlines p.text).filter fun ln => py_strip ln ≠ "").map py_rstrip
    let top_pool := (pages.map fun p => ((nonblank p).take top_n).map
      normalize_line_for_repeat_detection).flatten
    let bottom_pool := (pages.map fun p =>
      (if 0 < bottom_n then py_tail (nonblank p) bottom_n else []).map
        normalize_line_for_repeat_detection).flatten
    let repeated_top : String → Bool := fun k =>
      (k != "") && decide (threshold ≤ count_in top_pool k)
    let repeated_bottom : String → Bool := fun k =>
      (k != "") && decide (threshold ≤ count_in bottom_pool k)
    pages.map fun p =>
      let raw_lines := py_splitlines p.text
      let keep_lines := (raw_lines.enum.filter fun q =>
        let norm := normalize_line_for_repeat_detection q.2
        !((decide (q.1 < top_n) && repeated_top norm) ||
          (decide (raw_lines.length - bottom_n ≤ q.1) && repeated_bottom norm))).map fun q => q.2
      ⟨p.page_num, py_strip (py_join "\n" keep_lines)⟩

/-! ### Auxiliary definitions used by the verification -/

/-- Every boundary recorded by the packing loop carries exactly the tail
overlap of its flushed buffer. -/
def BoundaryInv (ov : ℕ) (b : Boundary) : Prop :=
  b.carried = tail_overlap_units b.flushed ov

/-- Value of a little-endian decimal digit list. -/
def digits_val : List ℕ → ℕ
  | [] => 0
  | d :: ds => d + 10 * digits_val ds

/-- Numeric value of one decimal digit character. -/
def char_digit (c : Char) : ℕ := c.toNat - 48

/-- Value of a big-endian decimal character string (leading zeros allowed),
used to decode `make_chunk_id` back to its index. -/
def chars_val (acc : ℕ) (cs : List Char) : ℕ :=
  cs.foldl (fun a c => 10 * a + char_digit c) acc

/-- The 1000-character chunk text of the prompt-budget scenario.  On this
text the source's `_clean_context_text` is the identity: it contains no
whitespace run, no `@`, and no `abstract`/`keywords`/`introduction`
front-matter marker, so every regex substitution leaves it unchanged. -/
def scenario_text : String := String.mk (List.replicate 1000 'a')

/-- The five 1000-character candidate chunks of the prompt-budget scenario. -/
def scenario_retrieved : List RetrievedChunk :=
  (List.range 5).map fun i =>
    { chunk :=
        { book_title := "Book", chunk_id := make_chunk_id (i + 1), page_start := 1,
          page_end := 1, section_title := none, token_estimate := 250,
          text := scenario_text, source_pdf := "" }
      dense_score := 0, sparse_score := 0, hybrid_score := 0, rank := i + 1 }

/-- Two one-page documents used to witness the chunk-id claim. -/
def witness_docs : List Doc :=
  [⟨"B1", "/p/1", [⟨1, "aaaa"⟩]⟩, ⟨"B2", "/p/2", [⟨1, "cccc"⟩]⟩]

/-- The two chunks `build_index_chunks witness_docs` produces. -/
def witness_chunks : List Chunk :=
  [{ book_title := "B1", chunk_id := "chunk_0001", page_start := 1, page_end := 1,
     section_title := none, token_estimate := 1, text := "aaaa", source_pdf := "/p/1" },
   { book_title := "B2", chunk_id := "chunk_0002", page_start := 1, page_end := 1,
     section_title := none, token_estimate := 1, text := "cccc", source_pdf := "/p/2" }]

/-- A three-chunk corpus for the fusion-scoring witness: the spec's scenario
of a perfect lexical match, a perfect dense match, and a chunk with
neither. -/
def fusion_witness_chunks : List Chunk :=
  [{ book_title := "B", chunk_id := "chunk_0001", page_start := 1, page_end := 1,
     section_title := none, token_estimate := 1, text := "alpha", source_pdf := "" },
   { book_title := "B", chunk_id := "chunk_0002", page_start := 2, page_end := 2,
     section_title := none, token_estimate := 1, text := "beta", source_pdf := "" },
   { book_title := "B", chunk_id := "chunk_0003", page_start := 3, page_end := 3,
     section_title := none, token_estimate := 1, text := "gamma", source_pdf := "" }]

/-- Total length of the headers of the emitted context blocks — the most
generous reading of the "small fixed header overhead" a context section may
add beyond the configured budget. -/
def emitted_header_chars (clean : String → String) (budget : ℤ)
    (retrieved : List RetrievedChunk) : ℕ :=
  (((build_context_go clean retrieved 1 budget).filterMap fun st =>
    st.emitted.map fun _ => py_len st.header)).sum

/-! ## Helper lemmas -/

theorem token_sum_cons (u : TextUnit) (l : List TextUnit) :
    token_sum (u :: l) = estimate_tokens u.text + token_sum l := by
  simp [token_sum]

theorem token_sum_reverse (l : List TextUnit) : token_sum l.reverse = token_sum l := by
  simp [token_sum, List.map_reverse, List.sum_reverse]

theorem isSuffix_append_same {α : Type} {a b : List α} (c : List α) (h : a <:+ b) :
    a ++ c <:+ b ++ c := by
  obtain ⟨t, ht⟩ := h
  exact ⟨t, by rw [← List.append_assoc, ht]⟩

theorem tail_overlap_go_suffix (ov : ℕ) :
    ∀ (rev : List TextUnit) (total : ℕ),
      (tail_overlap_go ov rev total).reverse <:+ rev.reverse
  | [], _ => by simp [tail_overlap_go]
  | u :: rest, total => by
    rw [tail_overlap_go]
    by_cases hle : ov ≤ total + estimate_tokens u.text
    · simp only [if_pos hle, List.reverse_cons, List.reverse_nil, List.nil_append]
      exact List.suffix_append rest.reverse [u]
    · simp only [if_neg hle, List.reverse_cons]
      exact isSuffix_append_same [u] (tail_overlap_go_suffix ov rest (total + estimate_tokens u.text))

theorem tail_overlap_go_spec (ov : ℕ) :
    ∀ (rev : List TextUnit) (total : ℕ),
      ov ≤ total + token_sum (tail_overlap_go ov rev total) ∨
        (tail_overlap_go ov rev total = rev ∧ total + token_sum rev < ov)
  | [], total => by
    rcases le_or_lt ov total with h | h
    · left; simp [tail_overlap_go, token_sum]; omega
    · right; simp [tail_overlap_go, token_sum]; omega
  | u :: rest, total => by
    rw [tail_overlap_go]
    by_cases hle : ov ≤ total + estimate_tokens u.text
    · left
      simp only [if_pos hle, token_sum_cons, token_sum]
      simpa using hle
    · simp only [if_neg hle]
      rcases tail_overlap_go_spec ov rest (total + estimate_tokens u.text) with h | ⟨heq, hlt⟩
      · left; rw [token_sum_cons]; omega
      · right
        constructor
        · rw [heq]
        · rw [token_sum_cons]; omega

theorem tail_overlap_units_suffix (units : List TextUnit) (ov : ℕ) :
    tail_overlap_units units ov <:+ units := by
  have h := tail_overlap_go_suffix ov units.reverse 0
  rwa [List.reverse_reverse] at h

theorem tail_overlap_units_spec (units : List TextUnit) (ov : ℕ) :
    ov ≤ token_sum (tail_overlap_units units ov) ∨
      (token_sum units < ov ∧ tail_overlap_units units ov = units) := by
  rcases tail_overlap_go_spec ov units.reverse 0 with h | ⟨heq, hlt⟩
  · left
    rw [tail_overlap_units, token_sum_reverse]
    omega
  · right
    constructor
    · rw [token_sum_reverse] at hlt; omega
    · rw [tail_overlap_units, heq, List.reverse_reverse]

theorem pack_step_boundary_inv (bt : String) (tmax ov : ℕ) (st : PackState) (u : TextUnit)
    (hst : ∀ b ∈ st.boundaries, BoundaryInv ov b) :
    ∀ b ∈ (pack_step bt tmax ov st u).boundaries, BoundaryInv ov b := by
  intro b hb
  rw [pack_step] at hb
  by_cases hflush : tmax ≤ st.current_tokens + estimate_tokens u.text
  · simp only [if_pos hflush, List.mem_append, List.mem_singleton] at hb
    rcases hb with hb | hb
    · exact hst b hb
    · rw [hb]; rfl
  · simp only [if_neg hflush] at hb
    exact hst b hb

theorem pack_fold_boundary_inv (bt : String) (tmax ov : ℕ) :
    ∀ (units : List TextUnit) (st : PackState),
      (∀ b ∈ st.boundaries, BoundaryInv ov b) →
      ∀ b ∈ (units.foldl (pack_step bt tmax ov) st).boundaries, BoundaryInv ov b
  | [], st, hst => hst
  | u :: rest, st, hst => by
    rw [List.foldl_cons]
    exact pack_fold_boundary_inv bt tmax ov rest _ (pack_step_boundary_inv bt tmax ov st u hst)

theorem pack_units_boundary_inv (bt : String) (tmax ov : ℕ) (units : List TextUnit) :
    ∀ b ∈ (pack_units bt tmax ov units).boundaries, BoundaryInv ov b := by
  intro b hb
  rw [pack_units] at hb
  have base := pack_fold_boundary_inv bt tmax ov units
    ⟨[], [], [], 0, 1, false⟩ (by intro b hb; simp at hb)
  split at hb
  · exact base b hb
  · exact base b hb

/-! ## Claim theorems -/

/-- Claim C5: at every non-final chunk boundary produced by `build_chunks`,
the units carried into the next chunk are a suffix of the just-flushed
chunk's unit list in original order, and their combined token estimate is at
least `overlap_tokens` unless the whole flushed buffer estimates below
`overlap_tokens`, in which case the entire buffer carries over. -/
theorem build_chunks_overlap_containment (pages : List PageText) (book_title : String)
    (tmax ov : ℕ) (b : Boundary) (hb : b ∈ build_boundaries pages book_title tmax ov) :
    b.carried <:+ b.flushed ∧
      (ov ≤ token_sum b.carried ∨ (token_sum b.flushed < ov ∧ b.carried = b.flushed)) := by
  rw [build_boundaries] at hb
  split at hb
  · simp at hb
  · have hinv := pack_units_boundary_inv book_title tmax ov _ b hb
    rw [BoundaryInv] at hinv
    refine ⟨hinv ▸ tail_overlap_units_suffix b.flushed ov, ?_⟩
    rcases tail_overlap_units_spec b.flushed ov with h | ⟨hlt, heq⟩
    · left; rw [hinv]; exact h
    · right; exact ⟨hlt, by rw [hinv, heq]⟩

/-- Witness for C5 at a concrete two-boundary document. -/
theorem build_chunks_overlap_containment_witness :
    (⟨[⟨"bbbb", 1, none⟩, ⟨"cccc", 1, none⟩], [⟨"cccc", 1, none⟩]⟩ : Boundary).carried <:+
        (⟨[⟨"bbbb", 1, none⟩, ⟨"cccc", 1, none⟩], [⟨"cccc", 1, none⟩]⟩ : Boundary).flushed ∧
      (1 ≤ token_sum (⟨[⟨"bbbb", 1, none⟩, ⟨"cccc", 1, none⟩], [⟨"cccc", 1, none⟩]⟩ : Boundary).carried ∨
        (token_sum (⟨[⟨"bbbb", 1, none⟩, ⟨"cccc", 1, none⟩], [⟨"cccc", 1, none⟩]⟩ : Boundary).flushed < 1 ∧
          (⟨[⟨"bbbb", 1, none⟩, ⟨"cccc", 1, none⟩], [⟨"cccc", 1, none⟩]⟩ : Boundary).carried =
            (⟨[⟨"bbbb", 1, none⟩, ⟨"cccc", 1, none⟩], [⟨"cccc", 1, none⟩]⟩ : Boundary).flushed)) :=
  build_chunks_overlap_containment [⟨1, "aaaa\n\nbbbb\n\ncccc"⟩] "B" 2 1
    ⟨[⟨"bbbb", 1, none⟩, ⟨"cccc", 1, none⟩], [⟨"cccc", 1, none⟩]⟩ (by decide)

/-- Claim C10: header/footer removal returns exactly one output page per
input page, in order, preserving every `page_num`; only the text changes. -/
theorem remove_repeated_headers_footers_frame (pages : List PageText)
    (top_n bottom_n threshold : ℕ) :
    (remove_repeated_headers_footers pages top_n bottom_n threshold).length = pages.length ∧
      (remove_repeated_headers_footers pages top_n bottom_n threshold).map
          (fun p => p.page_num) = pages.map fun p => p.page_num := by
  rw [remove_repeated_headers_footers]
  by_cases hp : pages = []
  · simp [hp]
  · simp [if_neg hp, List.map_map, Function.comp]

/-- Claim C7 fails as stated: rebuilding into a directory that already holds
the four artifacts of a previous build and failing after the first write
step (some but not all of the five steps) leaves a directory that still
passes the load-time all-artifacts-present check. -/
theorem partial_build_dirty_dir_passes_check :
    1 < build_write_order.length ∧
      load_check_passes (files_after_partial_build required_artifacts 1) = true := by
  decide

/-- Claim C7, amended: provided the output directory holds no index artifact
beforehand, a build that fails after any proper prefix of its write steps
leaves a directory that fails the load check, and `load_index` errors naming
a missing artifact (the build writes `meta.json` last, so a failed fresh
build always lacks at least one required artifact). -/
theorem partial_build_fresh_dir_fails_check :
    ∀ k, k < build_write_order.length →
      load_check_passes (files_after_partial_build [] k) = false ∧
        ∃ p ∈ required_artifacts,
          load_index_check (files_after_partial_build [] k) =
              Except.error ("Missing index artifact: " ++ p) ∧
            ¬ p ∈ files_after_partial_build [] k := by
  decide

/-- Witness for the amended C7 at a build failing after three steps. -/
theorem partial_build_fresh_dir_fails_check_witness :
    load_check_passes (files_after_partial_build [] 3) = false ∧
      ∃ p ∈ required_artifacts,
        load_index_check (files_after_partial_build [] 3) =
            Except.error ("Missing index artifact: " ++ p) ∧
          ¬ p ∈ files_after_partial_build [] 3 :=
  partial_build_fresh_dir_fails_check 3 (by decide)

/-- Claim C9: retrieval returns at most `top_k` results, and an index with
zero chunks yields the empty list rather than an error. -/
theorem hybrid_retrieve_topk_and_empty (chunks : List Chunk) (cands : List (ℚ × ℤ))
    (sparse_all : List ℚ) (top_k : ℕ) (dense_weight sparse_weight : ℚ) :
    (hybrid_retrieve chunks cands sparse_all top_k dense_weight sparse_weight).length ≤ top_k ∧
      (chunks = [] →
        hybrid_retrieve chunks cands sparse_all top_k dense_weight sparse_weight = []) := by
  constructor
  · rw [hybrid_retrieve]
    by_cases h : chunks.length = 0
    · simp [h]
    · simp only [if_neg h, List.length_map, List.enum_length, List.length_take]
      omega
  · intro h
    rw [hybrid_retrieve]
    simp [h]

/-- Witness for C9 on an empty index. -/
theorem hybrid_retrieve_topk_and_empty_witness :
    hybrid_retrieve [] [(1, 0)] [] 3 (65 / 100) (35 / 100) = [] :=
  (hybrid_retrieve_topk_and_empty [] [(1, 0)] [] 3 (65 / 100) (35 / 100)).2 rfl

/-- Claim C8 fails as stated: a title-case line that is the last line of its
page is classified as a title-case heading although no line — in particular
no blank line — follows it.  `collect_units` on a one-line page emits the
line as a heading (its `section_title` is set, which a paragraph unit would
leave `none`), while the line is not an all-caps heading and the page's line
list has no second element. -/
theorem title_case_heading_last_line_counterexample :
    is_all_caps_heading "Hello World" = false ∧
      py_splitlines "Hello World" = ["Hello World"] ∧
      classified_as_heading "Hello World" [] = true ∧
      collect_units [⟨1, "Hello World"⟩] = [⟨"Hello World", 1, some "Hello World"⟩] := by
  decide

/-- Claim C8, amended: during unit collection a line is classified as a
title-case heading only if it strips non-empty, is at most 120 characters,
tokenizes into 1–14 word-like tokens of which at least 70% start with an
uppercase letter, and the immediately following line on its page — if there
is one — is blank: the collector substitutes an empty string for the
missing next line at the end of a page, so a final line needs no following
blank line.  Only `lines[i + 1]` is consulted; later lines may be
non-blank. -/
theorem title_case_heading_conditions (line : String) (rest : List String)
    (hc : classified_as_heading line rest = true)
    (hnc : is_all_caps_heading line = false) :
    py_strip line ≠ "" ∧
      py_len (py_strip line) ≤ 120 ∧
      (∀ r tl, rest = r :: tl → py_strip r = "") ∧
      1 ≤ (title_words (py_strip line)).length ∧
      (title_words (py_strip line)).length ≤ 14 ∧
      7 * (title_words (py_strip line)).length ≤
        10 * title_cap_count (title_words (py_strip line)) := by
  have ht : is_title_case_heading line (next_line_of rest) = true := by
    rw [classified_as_heading, hnc] at hc
    simpa using hc
  have hE : ¬(py_strip line = "") := by
    intro hE
    rw [is_title_case_heading] at ht
    simp [hE] at ht
  have hL : ¬(120 < py_len (py_strip line)) := by
    intro hL
    rw [is_title_case_heading] at ht
    simp [hL] at ht
  have hN : py_strip (next_line_of rest) = "" := by
    by_contra hN
    rw [is_title_case_heading] at ht
    simp [hE, hL, hN] at ht
  have hW : ¬(title_words (py_strip line) = []) := by
    intro hW
    rw [is_title_case_heading] at ht
    simp [hE, hL, hN, hW] at ht
  have h14 : ¬(14 < (title_words (py_strip line)).length) := by
    intro h14
    rw [is_title_case_heading] at ht
    simp [hE, hL, hN, h14] at ht
  have hfin : 7 * (title_words (py_strip line)).length ≤
      10 * title_cap_count (title_words (py_strip line)) := by
    by_contra hfin
    rw [is_title_case_heading] at ht
    simp [hE, hL, hN, hW, h14, hfin] at ht
  exact ⟨hE, by omega, fun r tl hr => by rw [hr] at hN; exact hN,
    List.length_pos.mpr hW, by omega, hfin⟩

/-- Witness for the amended C8: a title-case line genuinely followed by a
blank line. -/
theorem title_case_heading_conditions_witness :
    py_strip "Hello World" ≠ "" ∧
      py_len (py_strip "Hello World") ≤ 120 ∧
      (∀ r tl, (["", "body text"] : List String) = r :: tl → py_strip r = "") ∧
      1 ≤ (title_words (py_strip "Hello World")).length ∧
      (title_words (py_strip "Hello World")).length ≤ 14 ∧
      7 * (title_words (py_strip "Hello World")).length ≤
        10 * title_cap_count (title_words (py_strip "Hello World")) :=
  title_case_heading_conditions "Hello World" ["", "body text"] (by decide) (by decide)

/-! Decoding `make_chunk_id`: the decimal rendering is injective, so chunk
ids are globally unique. -/

theorem decimal_rev_lt_ten : ∀ (fuel n : ℕ), ∀ d ∈ decimal_rev fuel n, d < 10
  | 0, _ => by simp [decimal_rev]
  | _ + 1, 0 => by simp [decimal_rev]
  | fuel + 1, n + 1 => by
    intro d hd
    rw [decimal_rev] at hd
    rcases List.mem_cons.mp hd with h | h
    · rw [h]; exact Nat.mod_lt _ (by omega)
    · exact decimal_rev_lt_ten fuel ((n + 1) / 10) d h

theorem digits_val_decimal_rev : ∀ (fuel n : ℕ), n ≤ fuel →
    digits_val (decimal_rev fuel n) = n
  | 0, n, h => by
    interval_cases n
    simp [decimal_rev, digits_val]
  | fuel + 1, 0, _ => by simp [decimal_rev, digits_val]
  | fuel + 1, n + 1, h => by
    rw [decimal_rev, digits_val,
      digits_val_decimal_rev fuel ((n + 1) / 10) (by omega)]
    omega

theorem char_digit_digit_char : ∀ d, d < 10 → char_digit (digit_char d) = d := by
  decide

theorem chars_val_replicate_zero : ∀ (j : ℕ) (cs : List Char),
    chars_val 0 (List.replicate j '0' ++ cs) = chars_val 0 cs
  | 0, cs => by simp
  | j + 1, cs => by
    rw [List.replicate_succ, List.cons_append]
    show chars_val (10 * 0 + char_digit '0') _ = _
    exact chars_val_replicate_zero j cs

theorem chars_val_map_digit_char : ∀ (ds : List ℕ) (acc : ℕ), (∀ d ∈ ds, d < 10) →
    chars_val acc (ds.map digit_char) = ds.foldl (fun a d => 10 * a + d) acc
  | [], _, _ => rfl
  | d :: ds, acc, h => by
    rw [List.map_cons]
    show chars_val (10 * acc + char_digit (digit_char d)) (ds.map digit_char) = _
    rw [char_digit_digit_char d (h d (by simp))]
    exact chars_val_map_digit_char ds _ (fun x hx => h x (by simp [hx]))

theorem foldl_reverse_digits : ∀ (l : List ℕ) (acc : ℕ),
    l.reverse.foldl (fun a d => 10 * a + d) acc = acc * 10 ^ l.length + digits_val l
  | [], acc => by simp [digits_val]
  | d :: t, acc => by
    rw [List.reverse_cons, List.foldl_append, foldl_reverse_digits t acc]
    simp only [List.foldl_cons, List.foldl_nil, digits_val, List.length_cons]
    ring

theorem chars_val_pad4 (n : ℕ) : chars_val 0 (pad4_chars n) = n := by
  rw [pad4_chars, chars_val_replicate_zero]
  by_cases h : n = 0
  · simp [h, decimal_digits]
    rfl
  · rw [decimal_digits, if_neg h,
      chars_val_map_digit_char _ 0
        (fun d hd => decimal_rev_lt_ten n n d (List.mem_reverse.mp hd))]
    rw [show ((decimal_rev n n).reverse.foldl (fun a d => 10 * a + d) 0 =
        0 * 10 ^ (decimal_rev n n).length + digits_val (decimal_rev n n)) from
      foldl_reverse_digits (decimal_rev n n) 0]
    rw [digits_val_decimal_rev n n le_rfl]
    omega

theorem make_chunk_id_injective : Function.Injective make_chunk_id := by
  intro m n h
  have hd : "chunk_".data ++ pad4_chars m = "chunk_".data ++ pad4_chars n := by
    have := congrArg String.data h
    simpa [make_chunk_id] using this
  have hp : pad4_chars m = pad4_chars n := List.append_cancel_left hd
  have := congrArg (chars_val 0) hp
  rwa [chars_val_pad4, chars_val_pad4] at this

/-- Claim C4: a successful build of any document list persists chunk ids
that are exactly `chunk_0001 … chunk_{N:04d}` in file order — contiguous and
globally unique — and the ids are assigned to the concatenation of every
document's finalized chunks in input order, overwriting the per-document
preliminary numbering (every field other than `chunk_id` survives
concatenation untouched). -/
theorem build_index_chunk_ids (docs : List Doc) (chunks : List Chunk)
    (h : build_index_chunks docs = .ok chunks) :
    (chunks.map fun c => c.chunk_id) =
        (List.range chunks.length).map (fun i => make_chunk_id (i + 1)) ∧
      (chunks.map fun c => c.chunk_id).Nodup ∧
      chunks.map erase_id = (concat_doc_chunks docs).map erase_id := by
  rw [build_index_chunks] at h
  split_ifs at h with h1 h2
  rw [Except.ok.injEq] at h
  subst h
  have hids : ((concat_doc_chunks docs).enum.map (fun p =>
      { p.2 with chunk_id := make_chunk_id (p.1 + 1) })).map (fun c => c.chunk_id) =
      (List.range (concat_doc_chunks docs).length).map fun i => make_chunk_id (i + 1) := by
    calc ((concat_doc_chunks docs).enum.map (fun p =>
          { p.2 with chunk_id := make_chunk_id (p.1 + 1) })).map (fun c => c.chunk_id)
        = ((concat_doc_chunks docs).enum.map Prod.fst).map fun i => make_chunk_id (i + 1) := by
          rw [List.map_map, List.map_map]; rfl
      _ = (List.range (concat_doc_chunks docs).length).map fun i => make_chunk_id (i + 1) := by
          rw [List.enum_map_fst]
  refine ⟨?_, ?_, ?_⟩
  · rw [hids]
    simp
  · rw [hids]
    exact (List.nodup_range _).map fun a b hab => by
      have := make_chunk_id_injective hab
      omega
  · calc ((concat_doc_chunks docs).enum.map (fun p =>
        { p.2 with chunk_id := make_chunk_id (p.1 + 1) })).map erase_id
        = (concat_doc_chunks docs).enum.map (erase_id ∘ Prod.snd) := by
          rw [List.map_map]; rfl
      _ = (concat_doc_chunks docs).map erase_id := by
          rw [← List.map_map, List.enum_map_snd]

/-- Witness for C4 on a concrete two-document build. -/
theorem build_index_chunk_ids_witness :
    (witness_chunks.map fun c => c.chunk_id) =
        (List.range witness_chunks.length).map (fun i => make_chunk_id (i + 1)) ∧
      (witness_chunks.map fun c => c.chunk_id).Nodup ∧
      witness_chunks.map erase_id = (concat_doc_chunks witness_docs).map erase_id :=
  build_index_chunk_ids witness_docs witness_chunks (by decide)

/-! Index arithmetic for the score vectors. -/

theorem getD_zipWith_q (f : ℚ → ℚ → ℚ) :
    ∀ (l1 l2 : List ℚ) (i : ℕ), i < l1.length → i < l2.length →
      (List.zipWith f l1 l2).getD i 0 = f (l1.getD i 0) (l2.getD i 0)
  | [], _, i, h1, _ => absurd h1 (by simp)
  | _ :: _, [], i, _, h2 => absurd h2 (by simp)
  | a :: l1, b :: l2, 0, _, _ => rfl
  | a :: l1, b :: l2, i + 1, h1, h2 => by
    simp only [List.zipWith_cons_cons, List.getD_cons_succ]
    exact getD_zipWith_q f l1 l2 i (by simpa using h1) (by simpa using h2)

theorem getD_map_q (g : ℚ → ℚ) :
    ∀ (l : List ℚ) (i : ℕ), i < l.length → (l.map g).getD i 0 = g (l.getD i 0)
  | [], i, h => absurd h (by simp)
  | a :: l, 0, _ => rfl
  | a :: l, i + 1, h => by
    simp only [List.map_cons, List.getD_cons_succ]
    exact getD_map_q g l i (by simpa using h)

theorem scatter_fold_length (cands : List (ℚ × ℤ)) :
    ∀ arr : List ℚ,
      (cands.foldl (fun arr sc =>
        if sc.2 < 0 then arr else arr.set sc.2.toNat (max sc.1 0)) arr).length = arr.length := by
  induction cands with
  | nil => intro arr; rfl
  | cons c rest ih =>
    intro arr
    rw [List.foldl_cons]
    rw [ih]
    split <;> simp

theorem scatter_dense_length (n : ℕ) (cands : List (ℚ × ℤ)) :
    (scatter_dense n cands).length = n := by
  rw [scatter_dense, scatter_fold_length]
  exact List.length_replicate n 0

theorem normalize_scores_length (l : List ℚ) : (normalize_scores l).length = l.length := by
  rw [normalize_scores]
  split <;> simp

theorem normalize_scores_getD (l : List ℚ) (i : ℕ) (h : i < l.length) :
    (normalize_scores l).getD i 0 =
      if 0 < arr_max l then l.getD i 0 / arr_max l else l.getD i 0 := by
  rw [normalize_scores]
  split_ifs with hm
  · exact getD_map_q _ l i h
  · rfl

/-! The sortedness properties of the descending argsort. -/

theorem mem_insert_desc (val : ℕ → ℚ) (i : ℕ) :
    ∀ (l : List ℕ) (x : ℕ), x ∈ insert_desc val i l → x = i ∨ x ∈ l
  | [], x, hx => by simpa [insert_desc] using hx
  | j :: rest, x, hx => by
    rw [insert_desc] at hx
    split_ifs at hx with hle
    · rcases List.mem_cons.mp hx with h | h
      · exact Or.inr (h ▸ List.mem_cons_self j rest)
      · rcases mem_insert_desc val i rest x h with h' | h'
        · exact Or.inl h'
        · exact Or.inr (List.mem_cons_of_mem j h')
    · rcases List.mem_cons.mp hx with h | h
      · exact Or.inl h
      · exact Or.inr h

theorem pairwise_insert_desc (val : ℕ → ℚ) (i : ℕ) :
    ∀ l : List ℕ, List.Pairwise (fun a b => val b ≤ val a) l →
      List.Pairwise (fun a b => val b ≤ val a) (insert_desc val i l)
  | [], _ => by simp [insert_desc]
  | j :: rest, hp => by
    rw [List.pairwise_cons] at hp
    obtain ⟨hj, hrest⟩ := hp
    rw [insert_desc]
    split_ifs with hle
    · rw [List.pairwise_cons]
      refine ⟨?_, pairwise_insert_desc val i rest hrest⟩
      intro b hb
      rcases mem_insert_desc val i rest b hb with h | h
      · rw [h]; exact hle
      · exact hj b h
    · rw [List.pairwise_cons]
      refine ⟨?_, by rw [List.pairwise_cons]; exact ⟨hj, hrest⟩⟩
      intro b hb
      have hij : val j ≤ val i := le_of_lt (lt_of_not_le hle)
      rcases List.mem_cons.mp hb with h | h
      · rw [h]; exact hij
      · exact le_trans (hj b h) hij

theorem pairwise_argsort_fold (val : ℕ → ℚ) :
    ∀ (ids : List ℕ) (l : List ℕ), List.Pairwise (fun a b => val b ≤ val a) l →
      List.Pairwise (fun a b => val b ≤ val a)
        (ids.foldl (fun acc i => insert_desc val i acc) l)
  | [], l, hp => hp
  | i :: ids, l, hp => by
    rw [List.foldl_cons]
    exact pairwise_argsort_fold val ids _ (pairwise_insert_desc val i l hp)

theorem pairwise_argsort_desc (val : ℕ → ℚ) (n : ℕ) :
    List.Pairwise (fun a b => val b ≤ val a) (argsort_desc val n) :=
  pairwise_argsort_fold val (List.range n) [] (List.Pairwise.nil)

/-- Any member of `hybrid_retrieve`'s result list arises from a position of
the selected id list, with rank that position plus one and `hybrid_score`
the fused value at the selected ordinal. -/
theorem hybrid_retrieve_mem_shape (chunks : List Chunk) (cands : List (ℚ × ℤ))
    (sparse_all : List ℚ) (top_k : ℕ) (dw sw : ℚ) (a : RetrievedChunk)
    (ha : a ∈ hybrid_retrieve chunks cands sparse_all top_k dw sw) :
    ∃ (k : ℕ) (hk : k <
        ((argsort_desc (fun i =>
          (fuse_hybrid dw sw (normalize_scores (scatter_dense chunks.length cands))
            (normalize_scores sparse_all)).getD i 0) chunks.length).take top_k).length),
      a.rank = k + 1 ∧
      a.hybrid_score = (fuse_hybrid dw sw
        (normalize_scores (scatter_dense chunks.length cands))
        (normalize_scores sparse_all)).getD
          (((argsort_desc (fun i =>
            (fuse_hybrid dw sw (normalize_scores (scatter_dense chunks.length cands))
              (normalize_scores sparse_all)).getD i 0) chunks.length).take top_k).get
            ⟨k, hk⟩) 0 := by
  rw [hybrid_retrieve] at ha
  by_cases h0 : chunks.length = 0
  · rw [if_pos h0] at ha
    simp at ha
  rw [if_neg h0] at ha
  obtain ⟨p, hp, rfl⟩ := List.mem_map.mp ha
  obtain ⟨k, hk, hpk⟩ := List.mem_iff_getElem.mp hp
  have hk' : k < ((argsort_desc (fun i =>
      (fuse_hybrid dw sw (normalize_scores (scatter_dense chunks.length cands))
        (normalize_scores sparse_all)).getD i 0) chunks.length).take top_k).length := by
    simpa using hk
  refine ⟨k, hk', ?_, ?_⟩
  · rw [← hpk, List.getElem_enum]
  · rw [← hpk, List.getElem_enum]
    simp [List.get_eq_getElem]

/-- Claim C1: for a non-empty loaded index, the retriever fuses per-chunk
scores as `dense_weight * normalized_dense + sparse_weight *
normalized_sparse`, each score vector normalized by its own maximum and left
unchanged (zero vector stays zero) when the maximum is not positive; a chunk
whose raw dense and sparse scores are both 0 gets hybrid score exactly 0 and
is never ranked above a chunk with positive hybrid score. -/
theorem hybrid_scoring_and_zero_rank (chunks : List Chunk) (cands : List (ℚ × ℤ))
    (sparse_all : List ℚ) (top_k : ℕ) (dw sw : ℚ)
    (hne : chunks ≠ []) (hlen : sparse_all.length = chunks.length) :
    (∀ i, i < chunks.length →
      (fuse_hybrid dw sw (normalize_scores (scatter_dense chunks.length cands))
          (normalize_scores sparse_all)).getD i 0 =
        dw * (normalize_scores (scatter_dense chunks.length cands)).getD i 0 +
          sw * (normalize_scores sparse_all).getD i 0) ∧
      (∀ (l : List ℚ) (i : ℕ), i < l.length →
        (normalize_scores l).getD i 0 =
          if 0 < arr_max l then l.getD i 0 / arr_max l else l.getD i 0) ∧
      (∀ i, i < chunks.length →
        (scatter_dense chunks.length cands).getD i 0 = 0 →
        sparse_all.getD i 0 = 0 →
        (fuse_hybrid dw sw (normalize_scores (scatter_dense chunks.length cands))
            (normalize_scores sparse_all)).getD i 0 = 0) ∧
      (∀ a ∈ hybrid_retrieve chunks cands sparse_all top_k dw sw,
        ∀ b ∈ hybrid_retrieve chunks cands sparse_all top_k dw sw,
          a.hybrid_score = 0 → 0 < b.hybrid_score → b.rank < a.rank) := by
  have hdl : (scatter_dense chunks.length cands).length = chunks.length :=
    scatter_dense_length chunks.length cands
  have hformula : ∀ i, i < chunks.length →
      (fuse_hybrid dw sw (normalize_scores (scatter_dense chunks.length cands))
          (normalize_scores sparse_all)).getD i 0 =
        dw * (normalize_scores (scatter_dense chunks.length cands)).getD i 0 +
          sw * (normalize_scores sparse_all).getD i 0 := by
    intro i hi
    rw [fuse_hybrid]
    exact getD_zipWith_q _ _ _ i
      (by rw [normalize_scores_length, hdl]; exact hi)
      (by rw [normalize_scores_length, hlen]; exact hi)
  refine ⟨hformula, fun l i h => normalize_scores_getD l i h, ?_, ?_⟩
  · intro i hi hd hs
    rw [hformula i hi,
      normalize_scores_getD _ i (by rw [hdl]; exact hi),
      normalize_scores_getD _ i (by rw [hlen]; exact hi), hd, hs]
    split_ifs <;> simp
  · intro a ha b hb ha0 hbpos
    obtain ⟨ka, hka, hrka, hsa⟩ := hybrid_retrieve_mem_shape chunks cands sparse_all
      top_k dw sw a ha
    obtain ⟨kb, hkb, hrkb, hsb⟩ := hybrid_retrieve_mem_shape chunks cands sparse_all
      top_k dw sw b hb
    have hpw : List.Pairwise (fun x y =>
        (fuse_hybrid dw sw (normalize_scores (scatter_dense chunks.length cands))
          (normalize_scores sparse_all)).getD y 0 ≤
        (fuse_hybrid dw sw (normalize_scores (scatter_dense chunks.length cands))
          (normalize_scores sparse_all)).getD x 0)
        ((argsort_desc (fun i =>
          (fuse_hybrid dw sw (normalize_scores (scatter_dense chunks.length cands))
            (normalize_scores sparse_all)).getD i 0) chunks.length).take top_k) :=
      (pairwise_argsort_desc _ chunks.length).sublist (List.take_sublist top_k _)
    rw [List.pairwise_iff_getElem] at hpw
    rcases lt_trichotomy ka kb with hlt | heq | hgt
    · have := hpw ka kb (by simpa using hka) (by simpa using hkb) hlt
      rw [List.get_eq_getElem] at hsa hsb
      rw [← hsb, ← hsa, ha0] at this
      exact absurd (lt_of_lt_of_le hbpos this) (lt_irrefl 0)
    · subst heq
      have hab : a.hybrid_score = b.hybrid_score := by rw [hsa, hsb]
      rw [ha0] at hab
      exact absurd hbpos (by rw [← hab]; exact lt_irrefl 0)
    · rw [hrka, hrkb]
      omega

/-- Witness for C1 on the spec's three-chunk fusion scenario (chunk 0 a pure
lexical match, chunk 1 a pure dense match, chunk 2 neither). -/
theorem hybrid_scoring_and_zero_rank_witness :
    (∀ i, i < fusion_witness_chunks.length →
      (fuse_hybrid (65 / 100) (35 / 100)
          (normalize_scores (scatter_dense fusion_witness_chunks.length [(8 / 10, 1)]))
          (normalize_scores [5, 0, 0])).getD i 0 =
        65 / 100 * (normalize_scores
            (scatter_dense fusion_witness_chunks.length [(8 / 10, 1)])).getD i 0 +
          35 / 100 * (normalize_scores [5, 0, 0]).getD i 0) ∧
      (∀ (l : List ℚ) (i : ℕ), i < l.length →
        (normalize_scores l).getD i 0 =
          if 0 < arr_max l then l.getD i 0 / arr_max l else l.getD i 0) ∧
      (∀ i, i < fusion_witness_chunks.length →
        (scatter_dense fusion_witness_chunks.length [(8 / 10, 1)]).getD i 0 = 0 →
        ([5, 0, 0] : List ℚ).getD i 0 = 0 →
        (fuse_hybrid (65 / 100) (35 / 100)
            (normalize_scores (scatter_dense fusion_witness_chunks.length [(8 / 10, 1)]))
            (normalize_scores [5, 0, 0])).getD i 0 = 0) ∧
      (∀ a ∈ hybrid_retrieve fusion_witness_chunks [(8 / 10, 1)] [5, 0, 0] 3
          (65 / 100) (35 / 100),
        ∀ b ∈ hybrid_retrieve fusion_witness_chunks [(8 / 10, 1)] [5, 0, 0] 3
            (65 / 100) (35 / 100),
          a.hybrid_score = 0 → 0 < b.hybrid_score → b.rank < a.rank) :=
  hybrid_scoring_and_zero_rank fusion_witness_chunks [(8 / 10, 1)] [5, 0, 0] 3
    (65 / 100) (35 / 100) (by decide) (by decide)

/-! Budget arithmetic of the prompt composer. -/

theorem py_len_append (a b : String) : py_len (a ++ b) = py_len a + py_len b := by
  cases a
  cases b
  simp [py_len, String.append]

theorem truncate_text_nonpos (t : String) (b : ℤ) (h : b ≤ 0) : truncate_text t b = "" := by
  rw [truncate_text, if_pos h]

theorem truncate_text_len_le (t : String) (b : ℤ) :
    (py_len (truncate_text t b) : ℤ) ≤ max 0 b := by
  rw [truncate_text]
  split_ifs with h1 h2 h3
  · simp [py_len]
  · omega
  · have : py_len (py_take t b.toNat) ≤ b.toNat := by
      simp [py_len, py_take]
    omega
  · rw [py_len_append]
    have hr : py_len (py_rstrip (py_take t (b - 3).toNat)) ≤ (b - 3).toNat := by
      calc py_len (py_rstrip (py_take t (b - 3).toNat))
          ≤ py_len (py_take t (b - 3).toNat) := by
            simp only [py_len, py_rstrip, py_take, List.length_reverse]
            calc (((t.data.take (b - 3).toNat).reverse.dropWhile Char.isWhitespace)).length
                ≤ (t.data.take (b - 3).toNat).reverse.length :=
                  (List.dropWhile_sublist _).length_le
              _ = (t.data.take (b - 3).toNat).length := List.length_reverse _
        _ ≤ (b - 3).toNat := by simp [py_len, py_take]
    have : (py_len "..." : ℤ) = 3 := by decide
    omega

theorem context_step_remaining (clean : String → String) (r : RetrievedChunk)
    (rest : List RetrievedChunk) (i : ℕ) (rem : ℤ) :
    (context_step clean r rest i rem).remaining = rem := by
  rw [context_step]; split <;> rfl

theorem context_step_chunks_remaining (clean : String → String) (r : RetrievedChunk)
    (rest : List RetrievedChunk) (i : ℕ) (rem : ℤ) :
    (context_step clean r rest i rem).chunks_remaining = (r :: rest).length := by
  rw [context_step]; split <;> rfl

theorem context_step_header (clean : String → String) (r : RetrievedChunk)
    (rest : List RetrievedChunk) (i : ℕ) (rem : ℤ) :
    (context_step clean r rest i rem).header = context_header i r := by
  rw [context_step]; split <;> rfl

theorem context_step_per_chunk_budget (clean : String → String) (r : RetrievedChunk)
    (rest : List RetrievedChunk) (i : ℕ) (rem : ℤ) :
    (context_step clean r rest i rem).per_chunk_budget =
      max 350 (Int.fdiv rem (max 1 ((r :: rest).length : ℤ))) := by
  rw [context_step]; split <;> rfl

theorem context_step_text_budget (clean : String → String) (r : RetrievedChunk)
    (rest : List RetrievedChunk) (i : ℕ) (rem : ℤ) :
    (context_step clean r rest i rem).text_budget =
      max 0 ((context_step clean r rest i rem).per_chunk_budget -
        py_len (context_step clean r rest i rem).header) := by
  rw [context_step_per_chunk_budget, context_step_header, context_step]
  split <;> rfl

theorem context_step_skip (clean : String → String) (r : RetrievedChunk)
    (rest : List RetrievedChunk) (i : ℕ) (rem : ℤ)
    (h : (context_step clean r rest i rem).text_budget ≤ 0) :
    (context_step clean r rest i rem).emitted = none := by
  have htb := context_step_text_budget clean r rest i rem
  rw [context_step] at h ⊢
  by_cases hc : truncate_text (clean r.chunk.text)
      (max 0 (max 350 (Int.fdiv rem (max 1 ((r :: rest).length : ℤ))) -
        py_len (context_header i r))) = ""
  · rw [if_pos hc]
  · exfalso
    rw [if_neg hc] at h
    simp only at h
    have h0 : max 0 (max 350 (Int.fdiv rem (max 1 ((r :: rest).length : ℤ))) -
        py_len (context_header i r)) ≤ 0 := h
    exact hc (truncate_text_nonpos _ _ h0)

theorem context_step_emit_le (clean : String → String) (r : RetrievedChunk)
    (rest : List RetrievedChunk) (i : ℕ) (rem : ℤ) (blk : String)
    (h : (context_step clean r rest i rem).emitted = some blk) :
    (py_len blk : ℤ) ≤ (context_step clean r rest i rem).per_chunk_budget := by
  rw [context_step_per_chunk_budget]
  rw [context_step] at h
  by_cases hc : truncate_text (clean r.chunk.text)
      (max 0 (max 350 (Int.fdiv rem (max 1 ((r :: rest).length : ℤ))) -
        py_len (context_header i r))) = ""
  · rw [if_pos hc] at h
    exact absurd h (by simp)
  · rw [if_neg hc] at h
    simp only [Option.some.injEq] at h
    subst h
    rw [py_len_append]
    have hlen := truncate_text_len_le (clean r.chunk.text)
      (max 0 (max 350 (Int.fdiv rem (max 1 ((r :: rest).length : ℤ))) -
        py_len (context_header i r)))
    have hpos : ¬ (max 0 (max 350 (Int.fdiv rem (max 1 ((r :: rest).length : ℤ))) -
        py_len (context_header i r)) ≤ 0) := by
      intro h0
      exact hc (truncate_text_nonpos _ _ h0)
    omega

theorem build_context_go_inv (clean : String → String) :
    ∀ (retrieved : List RetrievedChunk) (i : ℕ) (rem : ℤ) (st : ContextStep),
      st ∈ build_context_go clean retrieved i rem →
      st.per_chunk_budget =
          max 350 (Int.fdiv st.remaining (max 1 (st.chunks_remaining : ℤ))) ∧
        st.text_budget = max 0 (st.per_chunk_budget - py_len st.header) ∧
        (st.text_budget ≤ 0 → st.emitted = none) ∧
        (∀ blk, st.emitted = some blk → (py_len blk : ℤ) ≤ st.per_chunk_budget) ∧
        0 < st.remaining
  | [], _, _, _, hst => absurd hst (by simp [build_context_go])
  | r :: rest, i, rem, st, hst => by
    rw [build_context_go] at hst
    by_cases h0 : rem ≤ 0
    · rw [if_pos h0] at hst
      exact absurd hst (by simp)
    rw [if_neg h0] at hst
    rcases List.mem_cons.mp hst with hhd | htl
    · subst hhd
      refine ⟨?_, context_step_text_budget clean r rest i rem,
        context_step_skip clean r rest i rem,
        fun blk hblk => context_step_emit_le clean r rest i rem blk hblk, ?_⟩
      · rw [context_step_per_chunk_budget, context_step_remaining,
          context_step_chunks_remaining]
      · rw [context_step_remaining]; omega
    · exact build_context_go_inv clean rest (i + 1) _ st htl

set_option maxRecDepth 100000 in
/-- Claim C3 fails on its budget scenario: with `RAG_MAX_CONTEXT_CHARS=500`
(the configured budget, 500, is kept by the `max(500, ·)` floor) and five
1000-character candidate chunks, the emitted context section is 707
characters long — two full 350-character blocks plus the 7-character
delimiter — exceeding the 500-character budget by 207, which is more than
the combined length (130) of all emitted per-chunk headers, so the total
does not stay within the budget plus a header overhead.  The clean step is
instantiated with the identity, which is what `_clean_context_text` computes
on this marker-free, whitespace-free text. -/
theorem prompt_budget_scenario_counterexample :
    max_context_chars (some 500) = 500 ∧
      py_len (context_section id (max_context_chars (some 500)) scenario_retrieved) = 707 ∧
      emitted_header_chars id 500 scenario_retrieved = 130 ∧
      500 + 130 < 707 := by
  refine ⟨by decide, ?_, by decide, by decide⟩
  decide

set_option maxRecDepth 100000 in
/-- Claim C3, amended: each considered chunk is allotted
`max(350, remaining_budget // chunks_remaining)` characters including its
own header (every emitted block fits its allotment); a chunk whose allotted
text budget comes out as zero or less is skipped entirely — `emitted` is
`none`, the budget is left unchanged and the loop continues with the next
chunk; and in the 500-budget five-1000-character-chunk scenario the context
section totals 707 characters: within the configured budget plus one
per-chunk minimum allotment (350) and one delimiter (7), with exactly two
blocks emitted and no chunk truncated to an empty stub. -/
theorem build_answer_prompt_budget (clean : String → String) :
    (∀ (retrieved : List RetrievedChunk) (i : ℕ) (rem : ℤ) (st : ContextStep),
      st ∈ build_context_go clean retrieved i rem →
      st.per_chunk_budget =
          max 350 (Int.fdiv st.remaining (max 1 (st.chunks_remaining : ℤ))) ∧
        st.text_budget = max 0 (st.per_chunk_budget - py_len st.header) ∧
        (st.text_budget ≤ 0 → st.emitted = none) ∧
        (∀ blk, st.emitted = some blk → (py_len blk : ℤ) ≤ st.per_chunk_budget)) ∧
      (∀ (r : RetrievedChunk) (rest : List RetrievedChunk) (i : ℕ) (rem : ℤ),
        0 < rem → (context_step clean r rest i rem).emitted = none →
        build_context_go clean (r :: rest) i rem =
          context_step clean r rest i rem :: build_context_go clean rest (i + 1) rem) ∧
      (py_len (context_section id (max_context_chars (some 500)) scenario_retrieved) = 707 ∧
        707 ≤ 500 + 350 + 7 ∧
        (context_blocks id 500 scenario_retrieved).length = 2 ∧
        ∀ blk ∈ context_blocks id 500 scenario_retrieved, blk ≠ "") := by
  refine ⟨?_, ?_, ?_, by decide, by decide, by decide⟩
  · intro retrieved i rem st hst
    obtain ⟨h1, h2, h3, h4, _⟩ := build_context_go_inv clean retrieved i rem st hst
    exact ⟨h1, h2, h3, h4⟩
  · intro r rest i rem hrem hnone
    rw [build_context_go, if_neg (by omega)]
    simp only [hnone]
  · decide

set_option maxRecDepth 100000 in
/-- Witness for the amended C3: a concrete skipped step (empty cleaned text)
inside the scenario trace, and the skip-continue equation at that step. -/
theorem build_answer_prompt_budget_witness :
    ((⟨1, 500, 5, context_header 1 (scenario_retrieved.getD 0 default), 350, 285,
        none⟩ : ContextStep).per_chunk_budget =
        max 350 (Int.fdiv (⟨1, 500, 5,
          context_header 1 (scenario_retrieved.getD 0 default), 350, 285,
          none⟩ : ContextStep).remaining
            (max 1 ((⟨1, 500, 5, context_header 1 (scenario_retrieved.getD 0 default),
              350, 285, none⟩ : ContextStep).chunks_remaining : ℤ))) ∧
      (⟨1, 500, 5, context_header 1 (scenario_retrieved.getD 0 default), 350, 285,
          none⟩ : ContextStep).text_budget =
        max 0 ((⟨1, 500, 5, context_header 1 (scenario_retrieved.getD 0 default), 350, 285,
            none⟩ : ContextStep).per_chunk_budget -
          py_len (⟨1, 500, 5, context_header 1 (scenario_retrieved.getD 0 default), 350, 285,
            none⟩ : ContextStep).header) ∧
      ((⟨1, 500, 5, context_header 1 (scenario_retrieved.getD 0 default), 350, 285,
          none⟩ : ContextStep).text_budget ≤ 0 →
        (⟨1, 500, 5, context_header 1 (scenario_retrieved.getD 0 default), 350, 285,
          none⟩ : ContextStep).emitted = none) ∧
      (∀ blk, (⟨1, 500, 5, context_header 1 (scenario_retrieved.getD 0 default), 350, 285,
          none⟩ : ContextStep).emitted = some blk →
        (py_len blk : ℤ) ≤ (⟨1, 500, 5,
          context_header 1 (scenario_retrieved.getD 0 default), 350, 285,
          none⟩ : ContextStep).per_chunk_budget)) ∧
    build_context_go (fun _ => "") scenario_retrieved 1 500 =
      context_step (fun _ => "") (scenario_retrieved.getD 0 default)
          (scenario_retrieved.drop 1) 1 500 ::
        build_context_go (fun _ => "") (scenario_retrieved.drop 1) 2 500 := by
  refine ⟨(build_answer_prompt_budget (fun _ => "")).1 scenario_retrieved 1 500
    ⟨1, 500, 5, context_header 1 (scenario_retrieved.getD 0 default), 350, 285, none⟩
    (by decide), ?_⟩
  have h := (build_answer_prompt_budget (fun _ => "")).2.1
    (scenario_retrieved.getD 0 default) (scenario_retrieved.drop 1) 1 500
    (by decide) (by decide)
  calc build_context_go (fun _ => "") scenario_retrieved 1 500
      = build_context_go (fun _ => "")
          (scenario_retrieved.getD 0 default :: scenario_retrieved.drop 1) 1 500 := by
        rfl
    _ = context_step (fun _ => "") (scenario_retrieved.getD 0 default)
          (scenario_retrieved.drop 1) 1 500 ::
        build_context_go (fun _ => "") (scenario_retrieved.drop 1) 2 500 := h

/-! Association-list and fold lemmas for the embedding cache. -/

theorem getD_map_of_lt {α β : Type} (f : α → β) :
    ∀ (l : List α) (i : ℕ) (d : α) (d' : β), i < l.length →
      (l.map f).getD i d' = f (l.getD i d)
  | [], i, _, _, h => absurd h (by simp)
  | a :: l, 0, _, _, _ => rfl
  | a :: l, i + 1, d, d', h => by
    simp only [List.map_cons, List.getD_cons_succ]
    exact getD_map_of_lt f l i d d' (by simpa using h)

theorem getD_eq_of_lt {α : Type} :
    ∀ (l : List α) (i : ℕ) (d : α), i < l.length → ∃ hi : i < l.length, l.getD i d = l.get ⟨i, hi⟩
  | [], i, _, h => absurd h (by simp)
  | a :: l, 0, d, h => ⟨h, rfl⟩
  | a :: l, i + 1, d, h => by
    obtain ⟨hi, hv⟩ := getD_eq_of_lt l i d (by simpa using h)
    exact ⟨h, by simpa [List.getD_cons_succ] using hv⟩

theorem filterMap_id_all_some :
    ∀ l : List (Option Vec), (∀ x ∈ l, x ≠ none) →
      l.filterMap id = l.map fun x => x.getD []
  | [], _ => rfl
  | a :: l, h => by
    obtain ⟨v, rfl⟩ := Option.ne_none_iff_exists'.mp (h a (by simp))
    simp only [List.filterMap_cons, id, List.map_cons, Option.getD_some]
    rw [filterMap_id_all_some l fun x hx => h x (by simp [hx])]

theorem db_lookup_insert (db : List (String × Vec)) (k' k : String) (v : Vec) :
    db_lookup (db_insert db k' v) k = if k' = k then some v else db_lookup db k := by
  rw [db_lookup, db_insert, List.find?]
  split_ifs with he
  · simp [he]
  · have : (decide ((k', v).1 = k)) = false := by
      simpa using he
    rw [this]
    rfl

theorem db_lookup_mem_ne_none (db : List (String × Vec)) (k : String) (v : Vec)
    (h : (k, v) ∈ db) : db_lookup db k ≠ none := by
  rw [db_lookup]
  have hs : (db.find? fun e => e.1 = k).isSome := by
    rw [List.find?_isSome]
    exact ⟨(k, v), h, by simp⟩
  cases hfind : db.find? fun e => e.1 = k with
  | none => rw [hfind] at hs; simp at hs
  | some e => simp [hfind]

theorem set_getD_ne {α : Type} (l : List α) (i j : ℕ) (v d : α) (h : i ≠ j) :
    (l.set i v).getD j d = l.getD j d := by
  rw [List.getD_eq_getElem?_getD, List.getD_eq_getElem?_getD, List.getElem?_set_ne h]

theorem set_getD_self {α : Type} (l : List α) (i : ℕ) (v d : α) (h : i < l.length) :
    (l.set i v).getD i d = v := by
  rw [List.getD_eq_getElem?_getD, List.getElem?_set_self h]
  rfl

theorem fill_fold_length (h : String → String) (model_name : String) :
    ∀ (pairs : List ((ℕ × String) × Vec)) (acc : List (Option Vec) × List (String × Vec)),
      (pairs.foldl (fill_step h model_name) acc).1.length = acc.1.length
  | [], _ => rfl
  | pv :: pairs, acc => by
    rw [List.foldl_cons, fill_fold_length h model_name pairs]
    simp [fill_step]

theorem fill_fold_untouched (h : String → String) (model_name : String) :
    ∀ (pairs : List ((ℕ × String) × Vec)) (acc : List (Option Vec) × List (String × Vec))
      (j : ℕ), (∀ pv ∈ pairs, pv.1.1 ≠ j) →
      (pairs.foldl (fill_step h model_name) acc).1.getD j none = acc.1.getD j none
  | [], _, _, _ => rfl
  | pv :: pairs, acc, j, hne => by
    rw [List.foldl_cons, fill_fold_untouched h model_name pairs _ j
      fun q hq => hne q (by simp [hq])]
    exact set_getD_ne acc.1 pv.1.1 j (some pv.2) none (hne pv (by simp))

theorem fill_fold_hits (h : String → String) (model_name : String) :
    ∀ (pairs : List ((ℕ × String) × Vec)) (acc : List (Option Vec) × List (String × Vec))
      (pv : (ℕ × String) × Vec),
      (pairs.map fun q => q.1.1).Nodup → pv ∈ pairs → pv.1.1 < acc.1.length →
      (pairs.foldl (fill_step h model_name) acc).1.getD pv.1.1 none = some pv.2
  | [], _, pv, _, hpv, _ => absurd hpv (by simp)
  | q :: pairs, acc, pv, hnd, hpv, hlt => by
    rw [List.map_cons, List.nodup_cons] at hnd
    rw [List.foldl_cons]
    rcases List.mem_cons.mp hpv with rfl | hmem
    · rw [fill_fold_untouched h model_name pairs _ pv.1.1
        fun r hr hrq => hnd.1 (hrq ▸ List.mem_map_of_mem (fun s => s.1.1) hr)]
      exact set_getD_self acc.1 pv.1.1 (some pv.2) none hlt
    · exact fill_fold_hits h model_name pairs _ pv hnd.2 hmem
        (by simpa [fill_step] using hlt)

theorem fill_fold_db_mono (h : String → String) (model_name : String) :
    ∀ (pairs : List ((ℕ × String) × Vec)) (acc : List (Option Vec) × List (String × Vec))
      (x : String × Vec), x ∈ acc.2 → x ∈ (pairs.foldl (fill_step h model_name) acc).2
  | [], _, _, hx => hx
  | q :: pairs, acc, x, hx => by
    rw [List.foldl_cons]
    exact fill_fold_db_mono h model_name pairs _ x (by simp [fill_step, db_insert, hx])

theorem fill_fold_db_mem (h : String → String) (model_name : String) :
    ∀ (pairs : List ((ℕ × String) × Vec)) (acc : List (Option Vec) × List (String × Vec))
      (pv : (ℕ × String) × Vec), pv ∈ pairs →
      (cache_key h model_name pv.1.2, pv.2) ∈ (pairs.foldl (fill_step h model_name) acc).2
  | [], _, pv, hpv => absurd hpv (by simp)
  | q :: pairs, acc, pv, hpv => by
    rw [List.foldl_cons]
    rcases List.mem_cons.mp hpv with rfl | hmem
    · exact fill_fold_db_mono h model_name pairs _ _ (by simp [fill_step, db_insert])
    · exact fill_fold_db_mem h model_name pairs _ pv hmem

theorem fill_fold_lookup_pres (h : String → String) (model_name : String) :
    ∀ (pairs : List ((ℕ × String) × Vec)) (acc : List (Option Vec) × List (String × Vec))
      (k : String), db_lookup acc.2 k ≠ none →
      db_lookup (pairs.foldl (fill_step h model_name) acc).2 k ≠ none
  | [], _, _, hk => hk
  | q :: pairs, acc, k, hk => by
    rw [List.foldl_cons]
    refine fill_fold_lookup_pres h model_name pairs _ k ?_
    show db_lookup (db_insert acc.2 (cache_key h model_name q.1.2) q.2) k ≠ none
    rw [db_lookup_insert]
    split_ifs
    · simp
    · exact hk

theorem enumFrom_filter_snd {α : Type} (pred : α → Bool) :
    ∀ (l : List α) (k : ℕ),
      (((l.enumFrom k).filter fun p => pred p.2).map fun p => p.2) = l.filter pred
  | [], _ => rfl
  | a :: l, k => by
    show ((((k, a) :: l.enumFrom (k + 1)).filter fun p => pred p.2).map fun p => p.2) = _
    rw [List.filter_cons, List.filter_cons]
    by_cases hp : pred a
    · simp only [hp, if_pos]
      rw [List.map_cons, enumFrom_filter_snd pred l (k + 1)]
    · simp only [hp, Bool.false_eq_true, if_neg, if_false]
      exact enumFrom_filter_snd pred l (k + 1)

theorem mem_enum_spec {α : Type} [Inhabited α] (l : List α) (p : ℕ × α)
    (hp : p ∈ l.enum) : p.1 < l.length ∧ l.getD p.1 default = p.2 := by
  obtain ⟨k, hk, hpk⟩ := List.mem_iff_getElem.mp hp
  have hkl : k < l.length := by simpa using hk
  have hgk : p = (k, l.get ⟨k, hkl⟩) := by
    rw [← hpk, List.getElem_enum l k hk]
    simp [List.get_eq_getElem]
  refine ⟨by rw [hgk]; exact hkl, ?_⟩
  rw [hgk]
  obtain ⟨hi, hv⟩ := getD_eq_of_lt l k default hkl
  rw [hv]

theorem enum_mem_of_lt {α : Type} (l : List α) (i : ℕ) (hi : i < l.length) :
    ((i, l.get ⟨i, hi⟩) : ℕ × α) ∈ l.enum := by
  rw [List.mem_iff_getElem]
  refine ⟨i, by simpa using hi, ?_⟩
  rw [List.getElem_enum]
  simp [List.get_eq_getElem]

theorem enum_filter_snd {α : Type} (pred : α → Bool) (l : List α) :
    ((l.enum.filter fun p => pred p.2).map fun p => p.2) = l.filter pred :=
  enumFrom_filter_snd pred l 0

theorem getD_mem_of_lt {α : Type} (l : List α) (i : ℕ) (d : α) (h : i < l.length) :
    l.getD i d ∈ l := by
  obtain ⟨hi, hv⟩ := getD_eq_of_lt l i d h
  rw [hv]
  exact List.get_mem l _ _

/-- When every text already has a cached vector, `get_many` reads them all
back in input order, leaves the store untouched, and never calls the
encoder. -/
theorem get_many_all_hit (h : String → String) (db : List (String × Vec))
    (model_name : String) (texts : List String) (enc : List String → List Vec)
    (hall : ∀ t ∈ texts, db_lookup db (cache_key h model_name t) ≠ none) :
    get_many h db model_name texts enc =
      ⟨db, texts.map fun t => (db_lookup db (cache_key h model_name t)).getD [], []⟩ := by
  have hfil : (texts.enum.filter fun p =>
      db_lookup db (cache_key h model_name p.2) = none) = [] := by
    rw [List.filter_eq_nil_iff]
    intro p hp
    have hspec := mem_enum_spec texts p hp
    have hmem : p.2 ∈ texts := by
      rw [← hspec.2]
      exact getD_mem_of_lt texts p.1 default hspec.1
    simpa using hall p.2 hmem
  have hv0 : ((texts.map fun t => cache_key h model_name t).map fun k => db_lookup db k) =
      texts.map fun t => db_lookup db (cache_key h model_name t) := by
    rw [List.map_map]
    rfl
  have hsome : ∀ x ∈ texts.map fun t => db_lookup db (cache_key h model_name t),
      x ≠ none := by
    intro x hx
    obtain ⟨t, ht, rfl⟩ := List.mem_map.mp hx
    exact hall t ht
  simp only [get_many, hfil, List.map_nil, if_pos]
  rw [GetManyOut.mk.injEq]
  refine ⟨rfl, ?_, rfl⟩
  rw [hv0, filterMap_id_all_some _ hsome, List.map_map]
  rfl

/-- Claim C6: re-encoding the same texts under the same model identifier
through the cached path returns the stored vectors unchanged without
invoking the backend; cache misses invoke the encoder once on exactly the
missing texts in input order, and each encoded vector is returned at its
text's input position and stored under the content key
`model_identifier ++ "\n" ++ text` (hashed); through `encode_texts` the
encoder is the backend composed with L2 normalization.  The encoder is
assumed to return one vector per input, the embedding backend's contract. -/
theorem get_many_cache_correct (h : String → String) (db : List (String × Vec))
    (model_name : String) (texts : List String) (enc : List String → List Vec)
    (henc : ∀ ts, (enc ts).length = ts.length) :
    (get_many h db model_name texts enc).result.length = texts.length ∧
      (∀ i, i < texts.length → ∀ v : Vec,
        db_lookup db (cache_key h model_name (texts.getD i "")) = some v →
        (get_many h db model_name texts enc).result.getD i [] = v) ∧
      ((texts.enum.filter fun p =>
          db_lookup db (cache_key h model_name p.2) = none).map fun p => p.2) =
        texts.filter (fun t => db_lookup db (cache_key h model_name t) = none) ∧
      (get_many h db model_name texts enc).enc_batches =
        (if (texts.filter fun t => db_lookup db (cache_key h model_name t) = none) = []
         then []
         else [texts.filter fun t => db_lookup db (cache_key h model_name t) = none]) ∧
      (∀ pv ∈ (texts.enum.filter fun p =>
            db_lookup db (cache_key h model_name p.2) = none).zip
          (enc ((texts.enum.filter fun p =>
            db_lookup db (cache_key h model_name p.2) = none).map fun p => p.2)),
        texts.getD pv.1.1 "" = pv.1.2 ∧
          (get_many h db model_name texts enc).result.getD pv.1.1 [] = pv.2 ∧
          (cache_key h model_name pv.1.2, pv.2) ∈ (get_many h db model_name texts enc).db) ∧
      (∀ t ∈ texts,
        db_lookup (get_many h db model_name texts enc).db (cache_key h model_name t) ≠
          none) ∧
      get_many h (get_many h db model_name texts enc).db model_name texts enc =
        ⟨(get_many h db model_name texts enc).db,
          texts.map fun t =>
            (db_lookup (get_many h db model_name texts enc).db
              (cache_key h model_name t)).getD [],
          []⟩ ∧
      (∀ (lnorm : Vec → Vec) (backend : List String → List Vec),
        encode_texts lnorm backend h db model_name texts =
          ⟨(get_many h db model_name texts fun ts => (backend ts).map lnorm).db,
            (get_many h db model_name texts fun ts => (backend ts).map lnorm).result.map
              lnorm,
            (get_many h db model_name texts fun ts => (backend ts).map lnorm).enc_batches⟩) := by
  have hKm : ∀ p : ℕ × String,
      p ∈ (texts.enum.filter fun q =>
        db_lookup db (cache_key h model_name q.2) = none) →
      p.1 < texts.length ∧ texts.getD p.1 "" = p.2 ∧
        db_lookup db (cache_key h model_name p.2) = none := by
    intro p hp
    have hpe := List.mem_of_mem_filter hp
    have hpred := List.of_mem_filter hp
    have hspec := mem_enum_spec texts p hpe
    exact ⟨hspec.1, hspec.2, by simpa using hpred⟩
  have hfsnd := enum_filter_snd
    (fun t => db_lookup db (cache_key h model_name t) = none) texts
  by_cases hm : ((texts.enum.filter fun p =>
      db_lookup db (cache_key h model_name p.2) = none).map fun p => p.2) = []
  · -- every text is cached: the miss machinery is empty
    have hmiss : (texts.enum.filter fun p =>
        db_lookup db (cache_key h model_name p.2) = none) = [] :=
      List.map_eq_nil_iff.mp hm
    have hall : ∀ t ∈ texts, db_lookup db (cache_key h model_name t) ≠ none := by
      intro t ht hnone
      obtain ⟨⟨i, hi⟩, rfl⟩ := List.mem_iff_get.mp ht
      have hmemf : ((i, texts.get ⟨i, hi⟩) : ℕ × String) ∈ (texts.enum.filter fun p =>
          db_lookup db (cache_key h model_name p.2) = none) :=
        List.mem_filter.mpr ⟨enum_mem_of_lt texts i hi, by simpa using hnone⟩
      rw [hmiss] at hmemf
      simp at hmemf
    have hout := get_many_all_hit h db model_name texts enc hall
    have hfil2 : (texts.filter fun t =>
        db_lookup db (cache_key h model_name t) = none) = [] := by
      rw [← hfsnd, hmiss]
      rfl
    refine ⟨?_, ?_, hfsnd, ?_, ?_, ?_, ?_, fun lnorm backend => rfl⟩
    · simp only [hout]
      simp
    · intro i hi v hv
      simp only [hout]
      rw [getD_map_of_lt (fun t => (db_lookup db (cache_key h model_name t)).getD [])
        texts i "" [] hi, hv]
      rfl
    · simp only [hout, hfil2]
      rfl
    · intro pv hpv
      rw [hmiss] at hpv
      simp at hpv
    · intro t ht
      simp only [hout]
      exact hall t ht
    · simp only [hout]
  · -- at least one miss
    have hlenc : (enc ((texts.enum.filter fun p =>
        db_lookup db (cache_key h model_name p.2) = none).map fun p => p.2)).length =
        (texts.enum.filter fun p =>
          db_lookup db (cache_key h model_name p.2) = none).length := by
      rw [henc, List.length_map]
    have hfst : (((texts.enum.filter fun p =>
        db_lookup db (cache_key h model_name p.2) = none)).zip
          (enc ((texts.enum.filter fun p =>
            db_lookup db (cache_key h model_name p.2) = none).map fun p => p.2))).map
        Prod.fst =
        (texts.enum.filter fun p =>
          db_lookup db (cache_key h model_name p.2) = none) :=
      List.map_fst_zip _ _ (le_of_eq hlenc.symm)
    have hv0 : ((texts.map fun t => cache_key h model_name t).map fun k =>
        db_lookup db k) = texts.map fun t => db_lookup db (cache_key h model_name t) := by
      rw [List.map_map]
      rfl
    have hv0len : ((texts.map fun t => cache_key h model_name t).map fun k =>
        db_lookup db k).length = texts.length := by
      simp
    have hv0getD : ∀ i, i < texts.length →
        ((texts.map fun t => cache_key h model_name t).map fun k =>
          db_lookup db k).getD i none =
          db_lookup db (cache_key h model_name (texts.getD i "")) := by
      intro i hi
      rw [hv0, getD_map_of_lt _ texts i "" none hi]
    have hnodup : (((texts.enum.filter fun p =>
        db_lookup db (cache_key h model_name p.2) = none)).map Prod.fst).Nodup := by
      have h1 := (List.filter_sublist (l := texts.enum)
        (p := fun p => db_lookup db (cache_key h model_name p.2) = none)).map Prod.fst
      rw [List.enum_map_fst] at h1
      exact (List.nodup_range _).sublist h1
    have hnodup2 : ((((texts.enum.filter fun p =>
        db_lookup db (cache_key h model_name p.2) = none)).zip
          (enc ((texts.enum.filter fun p =>
            db_lookup db (cache_key h model_name p.2) = none).map fun p => p.2))).map
        fun q => q.1.1).Nodup := by
      have : (((texts.enum.filter fun p =>
          db_lookup db (cache_key h model_name p.2) = none)).zip
            (enc ((texts.enum.filter fun p =>
              db_lookup db (cache_key h model_name p.2) = none).map fun p => p.2))).map
          (fun q => q.1.1) =
          ((((texts.enum.filter fun p =>
            db_lookup db (cache_key h model_name p.2) = none)).zip
              (enc ((texts.enum.filter fun p =>
                db_lookup db (cache_key h model_name p.2) = none).map fun p => p.2))).map
            Prod.fst).map Prod.fst := by
        rw [List.map_map]
        rfl
      rw [this, hfst]
      exact hnodup
    have hmem_pairs : ∀ q ∈ (((texts.enum.filter fun p =>
        db_lookup db (cache_key h model_name p.2) = none)).zip
          (enc ((texts.enum.filter fun p =>
            db_lookup db (cache_key h model_name p.2) = none).map fun p => p.2))),
        q.1 ∈ (texts.enum.filter fun p =>
          db_lookup db (cache_key h model_name p.2) = none) := by
      intro q hq
      rw [← hfst]
      exact List.mem_map_of_mem Prod.fst hq
    have hcover : ∀ p ∈ (texts.enum.filter fun q =>
        db_lookup db (cache_key h model_name q.2) = none),
        ∃ pv ∈ (((texts.enum.filter fun q =>
          db_lookup db (cache_key h model_name q.2) = none)).zip
            (enc ((texts.enum.filter fun q =>
              db_lookup db (cache_key h model_name q.2) = none).map fun q => q.2))),
          pv.1 = p := by
      intro p hp
      rw [← hfst] at hp
      obtain ⟨pv, hpv, hv⟩ := List.mem_map.mp hp
      exact ⟨pv, hpv, hv⟩
    -- the filled vector list
    have hflen := fill_fold_length h model_name
      (((texts.enum.filter fun p =>
        db_lookup db (cache_key h model_name p.2) = none)).zip
          (enc ((texts.enum.filter fun p =>
            db_lookup db (cache_key h model_name p.2) = none).map fun p => p.2)))
      (((texts.map fun t => cache_key h model_name t).map fun k => db_lookup db k), db)
    have hfhit : ∀ i, i < texts.length → ∀ v : Vec,
        db_lookup db (cache_key h model_name (texts.getD i "")) = some v →
        ((((texts.enum.filter fun p =>
          db_lookup db (cache_key h model_name p.2) = none)).zip
            (enc ((texts.enum.filter fun p =>
              db_lookup db (cache_key h model_name p.2) = none).map fun p => p.2))).foldl
          (fill_step h model_name)
          (((texts.map fun t => cache_key h model_name t).map fun k => db_lookup db k),
            db)).1.getD i none = some v := by
      intro i hi v hv
      rw [fill_fold_untouched h model_name _ _ i ?_, hv0getD i hi, hv]
      intro pv hpv hne
      have hp1 := hKm pv.1 (hmem_pairs pv hpv)
      rw [hne] at hp1
      rw [hp1.2.1] at hv
      rw [hp1.2.2] at hv
      exact Option.noConfusion hv
    have hfmiss : ∀ pv ∈ (((texts.enum.filter fun p =>
        db_lookup db (cache_key h model_name p.2) = none)).zip
          (enc ((texts.enum.filter fun p =>
            db_lookup db (cache_key h model_name p.2) = none).map fun p => p.2))),
        ((((texts.enum.filter fun p =>
          db_lookup db (cache_key h model_name p.2) = none)).zip
            (enc ((texts.enum.filter fun p =>
              db_lookup db (cache_key h model_name p.2) = none).map fun p => p.2))).foldl
          (fill_step h model_name)
          (((texts.map fun t => cache_key h model_name t).map fun k => db_lookup db k),
            db)).1.getD pv.1.1 none = some pv.2 := by
      intro pv hpv
      refine fill_fold_hits h model_name _ _ pv hnodup2 hpv ?_
      rw [hv0len]
      exact (hKm pv.1 (hmem_pairs pv hpv)).1
    have hallsome : ∀ x ∈ ((((texts.enum.filter fun p =>
        db_lookup db (cache_key h model_name p.2) = none)).zip
          (enc ((texts.enum.filter fun p =>
            db_lookup db (cache_key h model_name p.2) = none).map fun p => p.2))).foldl
        (fill_step h model_name)
        (((texts.map fun t => cache_key h model_name t).map fun k => db_lookup db k),
          db)).1, x ≠ none := by
      intro x hx
      obtain ⟨j, hj, hjx⟩ := List.mem_iff_getElem.mp hx
      have hjt : j < texts.length := by
        rw [hflen, hv0len] at hj
        exact hj
      obtain ⟨hj2, hv⟩ := getD_eq_of_lt _ j none (by rwa [hflen, hv0len])
      rw [List.get_eq_getElem] at hv
      rw [← hjx, ← hv]
      by_cases hcase : db_lookup db (cache_key h model_name (texts.getD j "")) = none
      · have henum : ((j, texts.getD j "") : ℕ × String) ∈ texts.enum := by
          obtain ⟨hj3, hv3⟩ := getD_eq_of_lt texts j "" hjt
          rw [hv3]
          exact enum_mem_of_lt texts j hj3
        have hmemf : ((j, texts.getD j "") : ℕ × String) ∈ (texts.enum.filter fun p =>
            db_lookup db (cache_key h model_name p.2) = none) :=
          List.mem_filter.mpr ⟨henum, by simpa using hcase⟩
        obtain ⟨pv, hpv, hpv1⟩ := hcover _ hmemf
        have := hfmiss pv hpv
        rw [hpv1] at this
        rw [this]
        simp
      · obtain ⟨v, hv'⟩ := Option.ne_none_iff_exists'.mp hcase
        rw [hfhit j hjt v hv']
        simp
    have hout : get_many h db model_name texts enc =
        ⟨((((texts.enum.filter fun p =>
            db_lookup db (cache_key h model_name p.2) = none)).zip
              (enc ((texts.enum.filter fun p =>
                db_lookup db (cache_key h model_name p.2) = none).map fun p => p.2))).foldl
            (fill_step h model_name)
            (((texts.map fun t => cache_key h model_name t).map fun k => db_lookup db k),
              db)).2,
          ((((texts.enum.filter fun p =>
            db_lookup db (cache_key h model_name p.2) = none)).zip
              (enc ((texts.enum.filter fun p =>
                db_lookup db (cache_key h model_name p.2) = none).map fun p => p.2))).foldl
            (fill_step h model_name)
            (((texts.map fun t => cache_key h model_name t).map fun k => db_lookup db k),
              db)).1.filterMap id,
          [((texts.enum.filter fun p =>
            db_lookup db (cache_key h model_name p.2) = none).map fun p => p.2)]⟩ := by
      simp only [get_many, hm, if_neg, ite_false]
    have hres_getD : ∀ j, j < texts.length →
        (get_many h db model_name texts enc).result.getD j [] =
          (((((texts.enum.filter fun p =>
            db_lookup db (cache_key h model_name p.2) = none)).zip
              (enc ((texts.enum.filter fun p =>
                db_lookup db (cache_key h model_name p.2) = none).map fun p => p.2))).foldl
            (fill_step h model_name)
            (((texts.map fun t => cache_key h model_name t).map fun k => db_lookup db k),
              db)).1.getD j none).getD [] := by
      intro j hj
      simp only [hout]
      rw [filterMap_id_all_some _ hallsome,
        getD_map_of_lt (fun x => x.getD []) _ j none [] (by rwa [hflen, hv0len])]
    have hstored : ∀ t ∈ texts,
        db_lookup (get_many h db model_name texts enc).db (cache_key h model_name t) ≠
          none := by
      intro t ht
      simp only [hout]
      obtain ⟨⟨i, hi⟩, rfl⟩ := List.mem_iff_get.mp ht
      by_cases hcase : db_lookup db (cache_key h model_name (texts.get ⟨i, hi⟩)) = none
      · have hmemf : ((i, texts.get ⟨i, hi⟩) : ℕ × String) ∈ (texts.enum.filter fun p =>
            db_lookup db (cache_key h model_name p.2) = none) :=
          List.mem_filter.mpr ⟨enum_mem_of_lt texts i hi, by simpa using hcase⟩
        obtain ⟨pv, hpv, hpv1⟩ := hcover _ hmemf
        have hmm := fill_fold_db_mem h model_name _
          (((texts.map fun t => cache_key h model_name t).map fun k => db_lookup db k), db)
          pv hpv
        have hpv2 : pv.1.2 = texts.get ⟨i, hi⟩ := by rw [hpv1]
        rw [hpv2] at hmm
        exact db_lookup_mem_ne_none _ _ _ hmm
      · exact fill_fold_lookup_pres h model_name _ _ _ hcase
    refine ⟨?_, ?_, hfsnd, ?_, ?_, hstored, ?_, fun lnorm backend => rfl⟩
    · simp only [hout]
      rw [filterMap_id_all_some _ hallsome, List.length_map, hflen, hv0len]
    · intro i hi v hv
      rw [hres_getD i hi, hfhit i hi v hv]
      rfl
    · simp only [hout]
      rw [← hfsnd, if_neg hm]
    · intro pv hpv
      have hp1 := hKm pv.1 (hmem_pairs pv hpv)
      refine ⟨hp1.2.1, ?_, ?_⟩
      · rw [hres_getD pv.1.1 hp1.1, hfmiss pv hpv]
        rfl
      · simp only [hout]
        exact fill_fold_db_mem h model_name _ _ pv hpv
    · exact get_many_all_hit h (get_many h db model_name texts enc).db model_name texts
        enc hstored

/-- Witness for C6: a two-text batch against an empty cache with a counting
stub backend (vector = text length), hypothesis discharged for the stub. -/
theorem get_many_cache_correct_witness :
    (get_many (fun s => s) [] "m" ["x", "yy"]
      (fun ts => ts.map fun t => [(py_len t : ℚ)])).result.length = 2 ∧
      get_many (fun s => s)
          (get_many (fun s => s) [] "m" ["x", "yy"]
            (fun ts => ts.map fun t => [(py_len t : ℚ)])).db "m" ["x", "yy"]
          (fun ts => ts.map fun t => [(py_len t : ℚ)]) =
        ⟨(get_many (fun s => s) [] "m" ["x", "yy"]
            (fun ts => ts.map fun t => [(py_len t : ℚ)])).db,
          ["x", "yy"].map fun t =>
            (db_lookup (get_many (fun s => s) [] "m" ["x", "yy"]
                (fun ts => ts.map fun t => [(py_len t : ℚ)])).db
              (cache_key (fun s => s) "m" t)).getD [],
          []⟩ := by
  have hmain := get_many_cache_correct (fun s => s) [] "m" ["x", "yy"]
    (fun ts => ts.map fun t => [(py_len t : ℚ)])
    (fun ts => by rw [List.length_map])
  exact ⟨hmain.1, hmain.2.2.2.2.2.2.1⟩

end Ragbook
